import Mathlib

/-!
# Verification of the next-analyst agent orchestration core

A shallow embedding, in Lean 4, of the control-flow and data-transformation
logic of the next-analyst repository (Next.js + LangGraph data-analysis
assistant), together with proofs about the properties its specification
states.  Each section names the source file it embeds.

Conventions used throughout:
* JavaScript strings are Lean `String`s; `base64` payloads are kept abstract
  as strings.
* External collaborators (the LLM completion service, the E2B sandbox, the
  LangGraph `ToolNode` runtime) are modelled as explicit parameters or
  environment records describing every outcome the orchestration code can
  observe from them; the orchestration code itself is translated statement
  by statement.
* Thrown exceptions are modelled by environment flags selecting the catch
  branch of the corresponding `try`.
-/

namespace NextAnalyst

/-! ### String primitives

Substring, prefix, suffix and lower-casing tests over the character list
of a `String`.  These agree with the corresponding JS string methods; they
are spelled out over `String.data` so that every definition of this file
evaluates by kernel reduction on concrete inputs. -/

/-- `pre` is a prefix of `s` (JS `s.startsWith(pre)`). -/
def strStartsWith (s pre : String) : Bool := pre.data.isPrefixOf s.data

/-- `suf` is a suffix of `s` (JS `s.endsWith(suf)`). -/
def strEndsWith (s suf : String) : Bool := suf.data.isSuffixOf s.data

/-- Lower-case every character (JS `s.toLowerCase()` on the alphabets used
by the column-name heuristics). -/
def strToLower (s : String) : String := String.mk (s.data.map Char.toLower)

/-- `pat` occurs as a contiguous substring of `hay`. -/
def charListHasSub (pat : List Char) : List Char → Bool
  | [] => pat.isEmpty
  | c :: rest => pat.isPrefixOf (c :: rest) || charListHasSub pat rest

/-- `pat` occurs somewhere in `s` (JS `s.includes(pat)` / an unanchored
regex alternative). -/
def containsSub (s pat : String) : Bool := charListHasSub pat.data s.data

/-- Split a character list on a separator character (JS `s.split(sep)`
semantics: `n` separators produce `n + 1` segments). -/
def splitOnCharList (sep : Char) : List Char → List (List Char)
  | [] => [[]]
  | c :: rest =>
    let segs := splitOnCharList sep rest
    if c == sep then [] :: segs
    else
      match segs with
      | [] => [[c]]
      | seg :: rest2 => (c :: seg) :: rest2

/-! ## Execute endpoint — sandbox execution orchestrator

Source: `app/api/chat/execute/route.ts` (src/unnamed/part_004).
-/

/-- `MAX_SINGLE_FILE_SIZE = 5 * 1024 * 1024` — 5MB per generated file. -/
def MAX_SINGLE_FILE_SIZE : Nat := 5 * 1024 * 1024

/-- `MAX_TOTAL_FILE_SIZE = 20 * 1024 * 1024` — 20MB cumulative. -/
def MAX_TOTAL_FILE_SIZE : Nat := 20 * 1024 * 1024

/-- One structured result of a sandbox run: `{ text, png, html }`,
each field optional (`r.text`, `r.png`, `r.html` in the source). -/
structure ExecResult where
  text : Option String
  png : Option String
  html : Option String
deriving DecidableEq, Repr

/-- The dedup loop of the execute route, carrying the `seenPng` set
(modelled as a list used only through membership):

```js
const seenPng = new Set<string>();
const results = rawResults.filter((r) => {
  if (r.png) {
    const fingerprint = r.png.substring(0, 200);
    if (seenPng.has(fingerprint)) return false;
    seenPng.add(fingerprint);
  }
  return true;
});
``` -/
def dedupGo (seen : List String) : List ExecResult → List ExecResult
  | [] => []
  | r :: rs =>
    match r.png with
    | none => r :: dedupGo seen rs
    | some p =>
      let fp := p.take 200
      if fp ∈ seen then dedupGo seen rs
      else r :: dedupGo (fp :: seen) rs

/-- Deduplicate structured results carrying a png payload, keyed by the
first 200 characters of the encoded payload. -/
def dedupResults (rs : List ExecResult) : List ExecResult := dedupGo [] rs

/-- Two results "are the same image": both carry a png payload and the
200-character fingerprints coincide (the comparison the seen-set encodes). -/
def sharesPngFingerprint (earlier r : ExecResult) : Bool :=
  match earlier.png, r.png with
  | some q, some p => q.take 200 == p.take 200
  | _, _ => false

/-- Modelled from the spec sentence for the dedup claim: walk the result
list remembering every earlier result; drop a result exactly when some
earlier result in the list shares its fingerprint, keep everything else in
order. -/
def dedupSpecGo (earlier : List ExecResult) : List ExecResult → List ExecResult
  | [] => []
  | r :: rs =>
    if earlier.any (fun s => sharesPngFingerprint s r) then
      dedupSpecGo (earlier ++ [r]) rs
    else
      r :: dedupSpecGo (earlier ++ [r]) rs

/-- Spec-side description of the deduplication, to be compared with
`dedupResults`. -/
def dedupSpec (rs : List ExecResult) : List ExecResult := dedupSpecGo [] rs

/-- A directory entry returned by `sandbox.files.list("/home/user")`:
its `name`, whether `e.type === "file"`, and the size `os.path.getsize`
reports for it inside the sandbox. -/
structure DirEntry where
  name : String
  isFile : Bool
  size : Nat
deriving DecidableEq, Repr

/-- A generated file as returned to the client: `{name, size}` (the base64
content is read alongside; it plays no role in the selection logic). -/
structure GenFile where
  name : String
  size : Nat
deriving DecidableEq, Repr

/-- The `newFileNames` filter of the execute route:

```js
entries.filter((e) => e.type === "file" && !e.name.startsWith(".") &&
                      !uploadedFileNames.has(e.name))
``` -/
def eligibleEntries (entries : List DirEntry) (uploaded : List String) :
    List DirEntry :=
  entries.filter
    (fun e => e.isFile && !(strStartsWith e.name ".") && !(uploaded.contains e.name))

/-- The in-sandbox Python collection loop:

```python
for _name in names:
    if os.path.isfile(_fp):
        _size = os.path.getsize(_fp)
        if _size <= MAX_SINGLE_FILE_SIZE and _total + _size <= MAX_TOTAL_FILE_SIZE:
            _files.append(...); _total += _size
```
(the `os.path.isfile` re-check is subsumed by `DirEntry.isFile` of the
listing the names came from). -/
def collectGo (total : Nat) : List DirEntry → List GenFile
  | [] => []
  | e :: es =>
    if e.size ≤ MAX_SINGLE_FILE_SIZE ∧ total + e.size ≤ MAX_TOTAL_FILE_SIZE then
      { name := e.name, size := e.size } :: collectGo (total + e.size) es
    else
      collectGo total es

/-- Generated-file discovery of the execute route: performed only under
`if (!execution.error)`, over the non-hidden files of `/home/user` that
were not part of the staged upload set. -/
def discoverGeneratedFiles (execError : Option String)
    (entries : List DirEntry) (uploaded : List String) : List GenFile :=
  match execError with
  | some _ => []
  | none => collectGo 0 (eligibleEntries entries uploaded)

/-- Sum of the sizes of a list of generated files. -/
def sumSizes (gfs : List GenFile) : Nat := (gfs.map GenFile.size).foldr (· + ·) 0

/-- Everything the execute route can observe from its request and from the
E2B sandbox, as one environment record.  `*Throws` flags select the catch
branch of the corresponding await. -/
structure ExecuteEnv where
  /-- the `tool` field of the request body -/
  toolName : String
  /-- the `args.code` field; `none` when absent/falsy -/
  code : Option String
  /-- `Sandbox.create` succeeds -/
  createOk : Bool
  /-- a `sandbox.files.write` upload throws -/
  uploadThrows : Bool
  /-- `sandbox.runCode(code)` throws (as opposed to returning an execution error) -/
  runCodeThrows : Bool
  /-- `execution.logs.stdout`, joined -/
  runStdout : String
  /-- `execution.logs.stderr`, joined -/
  runStderr : String
  /-- `execution.results` -/
  runResults : List ExecResult
  /-- `execution.error`, as the `name + ": " + value` string the route builds -/
  runExecError : Option String
  /-- `sandbox.files.list` (or the file-read `runCode`) throws — caught locally -/
  listThrows : Bool
  /-- the `/home/user` directory listing after the run -/
  entries : List DirEntry
  /-- names staged from the request `files` array -/
  uploadedNames : List String
  /-- `sandbox.kill()` rejects -/
  killFails : Bool
deriving Repr

/-- Responses of the execute route (rich previews of generated files are
best-effort enrichment of `GenFile` entries, orthogonal to every property
below, and are elided from the model). -/
inductive ExecuteResponse where
  /-- a 400 `Response.json({ error })` before any sandbox work -/
  | badRequest (error : String)
  /-- the `type: "code_execution"` success shape -/
  | codeExecution (code stdout stderr : String) (results : List ExecResult)
      (generatedFiles : List GenFile) (error : Option String)
  /-- the `type: "code_execution_error"` catch shape -/
  | codeExecutionError (code : String) (error : String)
deriving DecidableEq, Repr

/-- The POST handler of the execute route.  Returns the response together
with the number of `sandbox.kill()` invocations the `finally` block
performed, and the swallowed teardown failure (always discarded by
`.catch(() => {})`, hence never part of the response). -/
def executePOST (env : ExecuteEnv) : ExecuteResponse × Nat :=
  if env.toolName ≠ "execute_python" then
    (ExecuteResponse.badRequest "Unsupported tool", 0)
  else
    match env.code with
    | none => (ExecuteResponse.badRequest "No code provided", 0)
    | some code =>
      -- try { ... } catch { code_execution_error } finally { kill if sandbox }
      if ¬ env.createOk then
        -- Sandbox.create threw: `sandbox` is still null, the finally block
        -- does not invoke kill.
        (ExecuteResponse.codeExecutionError code "sandbox creation failed", 0)
      else
        -- teardown outcome of the finally block: the rejection is swallowed
        -- by `.catch(() => {})` and bound to nothing.
        let _swallowedKillFailure : Option String :=
          if env.killFails then some "kill failed" else none
        if env.uploadThrows then
          (ExecuteResponse.codeExecutionError code "upload failed", 1)
        else if env.runCodeThrows then
          (ExecuteResponse.codeExecutionError code "runCode failed", 1)
        else
          let results := dedupResults env.runResults
          let generatedFiles :=
            if env.listThrows then []
            else discoverGeneratedFiles env.runExecError env.entries env.uploadedNames
          (ExecuteResponse.codeExecution code env.runStdout env.runStderr results
            generatedFiles env.runExecError, 1)

/-- `true` exactly when the execute route reaches a successful
`Sandbox.create`, i.e. a sandbox is provisioned. -/
def executeProvisioned (env : ExecuteEnv) : Bool :=
  env.toolName == "execute_python" && env.code.isSome && env.createOk

/-- Environment of the preview route (`app/api/chat/preview/route.ts`):
request validation outcomes and sandbox behaviour. -/
structure PreviewEnv where
  /-- the request has a `file` with truthy `name` and `content` -/
  fileGiven : Bool
  fileName : String
  /-- decoded byte length of the base64 content -/
  contentBytes : Nat
  createOk : Bool
  /-- `sandbox.files.write` or `sandbox.runCode` throws -/
  bodyThrows : Bool
  /-- `execution.error` of the preview script -/
  runExecError : Option String
  /-- stdout of the preview script parses as JSON -/
  parseOk : Bool
  killFails : Bool
deriving Repr

/-- `MAX_FILE_SIZE = 10MB` of the preview route. -/
def MAX_PREVIEW_FILE_SIZE : Nat := 10 * 1024 * 1024

/-- `SUPPORTED_FORMATS` of the preview route. -/
def SUPPORTED_FORMATS : List String :=
  ["csv", "tsv", "txt", "json", "xlsx", "xls", "parquet"]

/-- `file.name.split(".").pop()?.toLowerCase() || ""` -/
def extOf (name : String) : String :=
  strToLower (String.mk ((splitOnCharList '.' name.data).getLastD []))

/-- Responses of the preview route, abstracted to their shape. -/
inductive PreviewResponse where
  | badRequest (error : String)
  | execFailed (error : String)
  | success (parsedCleanly : Bool)
  | serverError (error : String)
deriving DecidableEq, Repr

/-- The POST handler of the preview route, returning the response and the
number of `sandbox.kill()` invocations of its `finally` block. -/
def previewPOST (env : PreviewEnv) : PreviewResponse × Nat :=
  if ¬ env.fileGiven then (PreviewResponse.badRequest "No file provided", 0)
  else if env.fileName.length > 255 then
    (PreviewResponse.badRequest "Invalid file name", 0)
  else if env.contentBytes > MAX_PREVIEW_FILE_SIZE then
    (PreviewResponse.badRequest "File too large", 0)
  else if ¬ SUPPORTED_FORMATS.contains (extOf env.fileName) then
    (PreviewResponse.badRequest "Unsupported file format", 0)
  else if ¬ env.createOk then
    -- Sandbox.create threw: caught by the outer catch, 500; sandbox null.
    (PreviewResponse.serverError "sandbox creation failed", 0)
  else
    let _swallowedKillFailure : Option String :=
      if env.killFails then some "kill failed" else none
    if env.bodyThrows then (PreviewResponse.serverError "preview failed", 1)
    else
      match env.runExecError with
      | some e => (PreviewResponse.execFailed e, 1)
      | none => (PreviewResponse.success env.parseOk, 1)

/-- `true` exactly when the preview route reaches a successful
`Sandbox.create`. -/
def previewProvisioned (env : PreviewEnv) : Bool :=
  env.fileGiven && !(env.fileName.length > 255)
    && !(env.contentBytes > MAX_PREVIEW_FILE_SIZE)
    && SUPPORTED_FORMATS.contains (extOf env.fileName) && env.createOk

/-! ## Chat route — streaming event emitter

Source: `app/api/chat/route.ts` in its LangGraph form (src/unnamed/part_003;
src/unnamed/part_001 is the same stream body without rate limiting), plus
the earlier manual-loop form (src/unnamed/part_002).
-/

/-- A tool call parsed from the model output: `{ id, name, args }`. -/
structure ToolCallReq where
  id : String
  name : String
  args : String
deriving DecidableEq, Repr

/-- One SSE frame of the streaming response, the JSON object behind
`data: {...}`.  `error` frames of the LangGraph route carry an `errorType`
field; the earlier routes omit it (`none`). -/
inductive Frame where
  | textDelta (content : String)
  | pendingToolCall (tool : String) (args : String)
  | toolCallFrame (tool : String) (args : String) (result : String)
  | errorFrame (errorType : Option String) (content : String)
  | done
deriving DecidableEq, Repr

/-- `true` on `error` frames. -/
def Frame.isError : Frame → Bool
  | Frame.errorFrame _ _ => true
  | _ => false

/-- One event observed from `graph.streamEvents(..., { version: "v2" })`:
the three event kinds the route inspects. -/
inductive GraphEvent where
  /-- `on_chat_model_stream` with `event.data?.chunk?.content` (`none` when
  the chunk content is not a string) -/
  | chatModelStream (content : Option String)
  /-- `on_chat_model_end` with the parsed `tool_calls` of the output message -/
  | chatModelEnd (toolCalls : List ToolCallReq)
  /-- `on_tool_end` with the tool name, its output (already rendered to the
  `result` JSON the route forwards) and its input -/
  | toolEnd (name : String) (output : String) (input : String)
deriving DecidableEq, Repr

/-- Frames emitted for a single graph event, exactly as the route's
for-await body does. -/
def emitForEvent : GraphEvent → List Frame
  | GraphEvent.chatModelStream content =>
    match content with
    | some c => if c.length > 0 then [Frame.textDelta c] else []
    | none => []
  | GraphEvent.chatModelEnd toolCalls =>
    -- only `execute_python` calls are emitted here, in order; safe calls
    -- surface later through `on_tool_end`
    toolCalls.filterMap (fun tc =>
      if tc.name == "execute_python" then
        some (Frame.pendingToolCall tc.name tc.args)
      else none)
  | GraphEvent.toolEnd name output input => [Frame.toolCallFrame name input output]

/-- One run of the graph event stream as the route observes it: the events
delivered, then either normal exhaustion (`err = none`) or a throw carrying
`error.name` and `error.message`. -/
structure GraphRun where
  events : List GraphEvent
  err : Option (String × String)
deriving Repr

/-- The full frame sequence the LangGraph chat route enqueues for one turn:
the for-await body over every event, then either the terminal `done`
(try path) or a single `error` frame with an `errorType` of
`"recursion_limit"` or `"execution_error"` (catch path) — after which the
controller closes. -/
def streamChatPOST (run : GraphRun) : List Frame :=
  let frames := run.events.flatMap emitForEvent
  match run.err with
  | none => frames ++ [Frame.done]
  | some (errName, errMsg) =>
    frames ++
      [Frame.errorFrame
        (some (if errName == "RecursionError" then "recursion_limit"
               else "execution_error"))
        ("Error: " ++ errMsg)]

/-! ### The manual-loop chat route (src/unnamed/part_002) -/

/-- A LangChain message as the loop accumulates them in `currentMessages`. -/
inductive BMsg where
  | system (content : String)
  | human (content : String)
  | ai (content : String) (toolCalls : List ToolCallReq)
  | toolMsg (toolCallId : String) (content : String)
deriving DecidableEq, Repr

/-- The model response of one `model.stream(...)` pass, fully accumulated:
the content chunks in arrival order and the parsed tool calls. -/
structure AIResp where
  contentChunks : List String
  toolCalls : List ToolCallReq
deriving Repr

/-- Names of the tools bound to the model in the manual-loop route
(`tools = [confirmAction, searchKnowledge, calculateData, executePython]`). -/
def boundToolNames : List String :=
  ["confirm_action", "search_knowledge", "calculate", "execute_python"]

/-- Result of the manual agent loop body: the frames enqueued, whether the
loop ended because the iteration ceiling was exhausted while it still
wanted to continue, and the number of model invocations performed. -/
structure LoopResult where
  frames : List Frame
  truncated : Bool
  agentInvocations : Nat
deriving DecidableEq, Repr

/-- Frames the per-tool-call for loop of one iteration emits, in call
order: unmatched names are skipped, `execute_python` yields a
`pending_tool_call` frame, every other matched call is executed and yields
a `tool_call` frame. -/
def callFrames (toolExec : String → String → String) :
    List ToolCallReq → List Frame
  | [] => []
  | tc :: tcs =>
    if boundToolNames.contains tc.name then
      (if tc.name == "execute_python" then Frame.pendingToolCall tc.name tc.args
       else Frame.toolCallFrame tc.name tc.args (toolExec tc.name tc.args))
        :: callFrames toolExec tcs
    else callFrames toolExec tcs

/-- The `ToolMessage`s collected for the executed (non-`execute_python`,
matched) calls of one iteration. -/
def collectToolMessages (toolExec : String → String → String) :
    List ToolCallReq → List BMsg
  | [] => []
  | tc :: tcs =>
    if boundToolNames.contains tc.name ∧ tc.name ≠ "execute_python" then
      BMsg.toolMsg tc.id (toolExec tc.name tc.args)
        :: collectToolMessages toolExec tcs
    else collectToolMessages toolExec tcs

/-- The `for (let iter = 0; iter < MAX_ITERATIONS; iter++)` loop of the
manual-loop route, structured on the remaining iteration budget.
`oracle` is the LLM collaborator (message history to accumulated
response); `toolExec` is the safe-tool execution collaborator (name and
args to the returned JSON string).  Content chunks stream as `text_delta`
frames when non-empty; a turn with tool calls either halts on
`execute_python` (after the per-call loop ran) or feeds all tool results
back and continues. -/
def agentLoopGo (oracle : List BMsg → AIResp)
    (toolExec : String → String → String) :
    Nat → List BMsg → LoopResult
  | 0, _ => { frames := [], truncated := true, agentInvocations := 0 }
  | fuel + 1, msgs =>
    let resp := oracle msgs
    let textFrames := resp.contentChunks.filterMap
      (fun c => if c.length > 0 then some (Frame.textDelta c) else none)
    if resp.toolCalls.length > 0 then
      let frames := textFrames ++ callFrames toolExec resp.toolCalls
      if resp.toolCalls.any (fun tc => tc.name == "execute_python") then
        -- hasPendingToolCall: break, user approval needed
        { frames := frames, truncated := false, agentInvocations := 1 }
      else
        -- `currentMessages = [...currentMessages, response, ...toolMessages]`
        -- with `response` the concatenation of all accumulated chunks
        let nextMsgs := msgs
          ++ [BMsg.ai (String.join resp.contentChunks) resp.toolCalls]
          ++ collectToolMessages toolExec resp.toolCalls
        let rest := agentLoopGo oracle toolExec fuel nextMsgs
        { frames := frames ++ rest.frames,
          truncated := rest.truncated,
          agentInvocations := rest.agentInvocations + 1 }
    else
      -- no tool calls: break
      { frames := textFrames, truncated := false, agentInvocations := 1 }

/-- `MAX_ITERATIONS` of the manual-loop route. -/
def MAX_ITERATIONS : Nat := 10

/-- The whole try-path of the manual-loop chat route: run the loop from
the built message list, then enqueue the terminal `done` frame. -/
def streamChatPOSTManualLoop (oracle : List BMsg → AIResp)
    (toolExec : String → String → String) (initMsgs : List BMsg) :
    LoopResult :=
  let r := agentLoopGo oracle toolExec MAX_ITERATIONS initMsgs
  { r with frames := r.frames ++ [Frame.done] }

/-! ## Agent state machine — LangGraph graph of `app/api/chat/agent.ts` -/

/-- Names of the safe tools auto-executed by the `ToolNode`
(`safeTools = [confirmAction, searchKnowledge, calculateData]`). -/
def safeToolNames : List String :=
  ["confirm_action", "search_knowledge", "calculate"]

/-- Targets of the conditional edge after the `agent` node. -/
inductive Route where
  | toolsNode
  | endRoute
deriving DecidableEq, Repr

/-- `routeAfterAgent` of agent.ts: inspect the last message; with a
non-empty `tool_calls` array, halt on any `execute_python` call, otherwise
go to the `tools` node; with no tool calls, halt. -/
def routeAfterAgent (msgs : List BMsg) : Route :=
  match msgs.getLast? with
  | some (BMsg.ai _ toolCalls) =>
    if toolCalls.length > 0 then
      if toolCalls.any (fun tc => tc.name == "execute_python") then
        Route.endRoute
      else
        Route.toolsNode
    else Route.endRoute
  | _ => Route.endRoute

/-- The `tools` node, `new ToolNode(safeTools)`: executes every tool call
of the last AI message through the safe-tool registry and appends one tool
message per call, in call order, before control returns to `agent`
(behaviour of the prebuilt `ToolNode` on the graph wired in
`createGraph`). -/
def toolNodeStep (toolExec : String → String → String) (msgs : List BMsg) :
    List BMsg :=
  match msgs.getLast? with
  | some (BMsg.ai _ toolCalls) =>
    msgs ++ toolCalls.map (fun tc => BMsg.toolMsg tc.id (toolExec tc.name tc.args))
  | _ => msgs

/-- Execution of the compiled graph
`START → agent → (routeAfterAgent) → {END, tools}`, `tools → agent`,
with `fuel` the remaining recursion budget (`recursionLimit`): `none`
models the `GraphRecursionError` throw on exhaustion. -/
def runGraph (oracle : List BMsg → String × List ToolCallReq)
    (toolExec : String → String → String) :
    Nat → List BMsg → Option (List BMsg)
  | 0, _ => none
  | fuel + 1, msgs =>
    let resp := oracle msgs
    let msgs' := msgs ++ [BMsg.ai resp.1 resp.2]
    match routeAfterAgent msgs' with
    | Route.endRoute => some msgs'
    | Route.toolsNode => runGraph oracle toolExec fuel (toolNodeStep toolExec msgs')

/-! ## Client reconstruction layer — `app/hooks/useChat.ts`
(src/unnamed/part_005) -/

/-- `ToolCall.status` of the client:
`"pending" | "approved" | "rejected" | "completed"`. -/
inductive TCStatus where
  | pending
  | approved
  | rejected
  | completed
deriving DecidableEq, Repr

/-- A client-side `ToolCall` record: `{tool, args, status, result?}`
(`args` and `result` kept abstract as strings). -/
structure CToolCall where
  tool : String
  args : String
  status : TCStatus
  result : Option String
deriving DecidableEq, Repr

/-- A `MessagePart`: a text run or a tool-call record. -/
inductive CPart where
  | textPart (text : String)
  | toolCallPart (tc : CToolCall)
deriving DecidableEq, Repr

/-- The in-flight assistant `Message` as the hook mutates it: flattened
`content`, the flat `toolCalls` list, the ordered `parts` list, and the
`isStreaming` flag. -/
structure CMsg where
  content : String
  toolCalls : List CToolCall
  parts : List CPart
  isStreaming : Bool
deriving DecidableEq, Repr

/-- The assistant message `sendMessage` creates before streaming:
`{content: "", toolCalls: [], isStreaming: true}` (no parts yet). -/
def initialAssistantMsg : CMsg :=
  { content := "", toolCalls := [], parts := [], isStreaming := true }

/-- Stream events as the client parser dispatches on `data.type`
(`text` is the legacy whole-chunk event of the earliest route version,
still handled by the client). -/
inductive CEvent where
  | textDelta (content : String)
  | textEv (content : String)
  | toolCallEv (tool : String) (args : String) (result : String)
  | pendingToolCallEv (tool : String) (args : String)
  | errorEv (content : String)
  | doneEv
deriving DecidableEq, Repr

/-- The text-merging step applied to `accParts` on a `text_delta`/`text`
event: when the final part is a text run, merge the payload into it,
otherwise append a new text part (the source inspects
`updatedParts[updatedParts.length - 1]`; this recursion reaches the same
final element). -/
def appendTextToParts : List CPart → String → List CPart
  | [], s => [CPart.textPart s]
  | [CPart.textPart t], s => [CPart.textPart (t ++ s)]
  | [CPart.toolCallPart tc], s => [CPart.toolCallPart tc, CPart.textPart s]
  | p :: q :: rest, s => p :: appendTextToParts (q :: rest) s

/-- One step of the client event loop of `sendMessage`, updating the
in-flight assistant message exactly as the corresponding `data.type`
branch does.  Note the `error` branch appends `data.content` to the
flattened content only, touching neither `toolCalls` nor `parts`. -/
def processEvent (m : CMsg) : CEvent → CMsg
  | CEvent.textDelta s =>
    { m with content := m.content ++ s, parts := appendTextToParts m.parts s }
  | CEvent.textEv s =>
    { m with content := m.content ++ s, parts := appendTextToParts m.parts s }
  | CEvent.toolCallEv tool args result =>
    let tc : CToolCall :=
      { tool := tool, args := args, status := TCStatus.completed,
        result := some result }
    { m with toolCalls := m.toolCalls ++ [tc],
             parts := m.parts ++ [CPart.toolCallPart tc] }
  | CEvent.pendingToolCallEv tool args =>
    let tc : CToolCall :=
      { tool := tool, args := args, status := TCStatus.pending, result := none }
    { m with toolCalls := m.toolCalls ++ [tc],
             parts := m.parts ++ [CPart.toolCallPart tc] }
  | CEvent.errorEv s => { m with content := m.content ++ s }
  | CEvent.doneEv => { m with isStreaming := false }

/-- Process a whole event sequence of one turn. -/
def applyEvents (m : CMsg) (events : List CEvent) : CMsg :=
  events.foldl processEvent m

/-- The flat tool-call list as addressed by position in the source:
`m.toolCalls?.map((t, i) => i === toolCallIndex ? f(t) : t)`. -/
def applyAtFlat (f : CToolCall → CToolCall) (i : Nat) :
    Nat → List CToolCall → List CToolCall
  | _, [] => []
  | counter, tc :: tcs =>
    (if counter == i then f tc else tc) :: applyAtFlat f i (counter + 1) tcs

/-- The parts update used by `approveToolCall` (and the follow-up
initialisation): walk `m.parts` with a `toolCallCounter` that counts only
tool-call parts, applying `f` to the part whose counter equals the index. -/
def applyAtParts (f : CToolCall → CToolCall) (i : Nat) :
    Nat → List CPart → List CPart
  | _, [] => []
  | counter, CPart.textPart t :: rest =>
    CPart.textPart t :: applyAtParts f i counter rest
  | counter, CPart.toolCallPart tc :: rest =>
    (if counter == i then CPart.toolCallPart (f tc) else CPart.toolCallPart tc)
      :: applyAtParts f i (counter + 1) rest

/-- First `setMessages` of `approveToolCall`: mark the located record
`approved` in the flat list and in the matching tool-call part. -/
def approveMark (m : CMsg) (i : Nat) : CMsg :=
  { m with
    toolCalls :=
      applyAtFlat (fun t => { t with status := TCStatus.approved }) i 0 m.toolCalls,
    parts :=
      applyAtParts (fun t => { t with status := TCStatus.approved }) i 0 m.parts }

/-- The `setMessages` after the execute fetch resolves: mark the record
`completed` with its result — in the flat `toolCalls` list only; `parts`
is not updated by this call. -/
def completeMark (m : CMsg) (i : Nat) (result : String) : CMsg :=
  { m with
    toolCalls :=
      applyAtFlat
        (fun t => { t with status := TCStatus.completed, result := some result })
        i 0 m.toolCalls }

/-- The local accumulators the follow-up stream starts from
(`updatedToolCalls` / `updatedParts` in the source): the pre-approval
message with the approved record set to `completed` in both views. -/
def followupInit (m : CMsg) (i : Nat) (result : String) : CMsg :=
  { m with
    toolCalls :=
      applyAtFlat
        (fun t => { t with status := TCStatus.completed, result := some result })
        i 0 m.toolCalls,
    parts :=
      applyAtParts
        (fun t => { t with status := TCStatus.completed, result := some result })
        i 0 m.parts }

/-- `rejectToolCall`: mark the record `rejected` in the flat `toolCalls`
list.  The `parts` list is not updated by this action. -/
def rejectMark (m : CMsg) (i : Nat) : CMsg :=
  { m with
    toolCalls :=
      applyAtFlat (fun t => { t with status := TCStatus.rejected }) i 0 m.toolCalls }

/-- The tool-call records stored in the tool-call parts of a part list, in
emission order. -/
def partTCsOf (ps : List CPart) : List CToolCall :=
  ps.filterMap (fun p =>
    match p with
    | CPart.toolCallPart tc => some tc
    | _ => none)

/-- The tool-call records stored in the tool-call parts of a message. -/
def partToolCalls (m : CMsg) : List CToolCall := partTCsOf m.parts

/-- Concatenation of the text of the text parts, in order. -/
def partsTextConcat : List CPart → String
  | [] => ""
  | CPart.textPart t :: rest => t ++ partsTextConcat rest
  | CPart.toolCallPart _ :: rest => partsTextConcat rest

/-- Concatenation of the payloads of the `text_delta` events of a turn. -/
def textDeltaConcat : List CEvent → String
  | [] => ""
  | CEvent.textDelta s :: rest => s ++ textDeltaConcat rest
  | _ :: rest => textDeltaConcat rest

/-- `true` on `error` events. -/
def CEvent.isError : CEvent → Bool
  | CEvent.errorEv _ => true
  | _ => false

/-- `true` on legacy `text` events. -/
def CEvent.isLegacyText : CEvent → Bool
  | CEvent.textEv _ => true
  | _ => false

/-! ## Message context builder — `buildLangChainMessages` of
`app/api/chat/agent.ts` -/

/-- The rich structural preview attached to a file
(`FileInfo.richPreview`). -/
structure RichPreview where
  fileName : String
  shape : Nat × Nat
  columns : List String
  dtypes : List (String × String)
  headText : String
  describeText : String
  nullCounts : List (String × Nat)
deriving DecidableEq, Repr

/-- `FileInfo` of agent.ts (the optional `isGenerated?` defaults to
`false`, matching JS truthiness of `undefined`). -/
structure FileInfo where
  name : String
  size : Nat
  preview : String
  isGenerated : Bool
  richPreview : Option RichPreview
deriving DecidableEq, Repr

/-- JS truthiness of an optional string: `undefined` and `""` are falsy. -/
def strTruthy (o : Option String) : Bool := o.getD "" ≠ ""

/-- `formatFileContext` of agent.ts, with the source\x27s Chinese literals. -/
def formatFileContext (f : FileInfo) : String :=
  let sourceTag := if f.isGenerated then " [代码执行生成]" else " [用户上传]"
  match f.richPreview with
  | some rp =>
    let nullInfo := String.intercalate "\n"
      ((rp.nullCounts.filter (fun kv => kv.2 > 0)).map
        (fun kv => "  " ++ kv.1 ++ ": " ++ toString kv.2 ++ "个空值"))
    "📎 文件: " ++ f.name ++ sourceTag ++ " (" ++ toString f.size ++ " bytes)\n"
      ++ "📊 数据概况: " ++ toString rp.shape.1 ++ "行 × "
      ++ toString rp.shape.2 ++ "列\n"
      ++ "📋 列名: " ++ String.intercalate ", " rp.columns ++ "\n"
      ++ "📋 列类型:\n"
      ++ String.intercalate "\n"
          (rp.dtypes.map (fun kv => "  " ++ kv.1 ++ ": " ++ kv.2)) ++ "\n"
      ++ "📋 前5行数据:\n```\n" ++ rp.headText ++ "\n```\n"
      ++ "📋 统计摘要:\n```\n" ++ rp.describeText ++ "\n```"
      ++ (if nullInfo ≠ "" then "\n⚠️ 空值情况:\n" ++ nullInfo else "")
      ++ "\n在Python代码中使用路径: /home/user/" ++ f.name
  | none =>
    "📎 文件: " ++ f.name ++ sourceTag ++ " (" ++ toString f.size ++ " bytes)\n"
      ++ "文件内容预览(前几行):\n```\n" ++ f.preview ++ "\n```\n"
      ++ "在Python代码中使用路径: /home/user/" ++ f.name

/-- `SYSTEM_PROMPT` of agent.ts (apostrophes escaped). -/
def SYSTEM_PROMPT : String :=
  "你是一个智能数据分析助手 (Next Analyst)。你可以帮助用户进行数据分析、回答问题、执行计算、编写和运行Python代码。\n      \n"
  ++ "你有以下工具可以使用:\n"
  ++ "- execute_python: 在Jupyter沙盒中执行Python代码，适用于数据分析、数据处理、生成图表、复杂计算等场景。沙盒已预装 pandas, numpy, matplotlib, seaborn, scikit-learn 等常用库。\n"
  ++ "- confirm_action: 当需要用户确认重要操作时使用\n"
  ++ "- search_knowledge: 搜索知识库获取信息\n"
  ++ "- calculate: 执行简单数学计算\n\n"
  ++ "重要规则:\n"
  ++ "1. 当用户需要数据分析、处理数据、生成图表、或任何需要编程解决的问题时，优先使用 execute_python 工具。\n"
  ++ "2. 请用中文回答问题。\n"
  ++ "3. 如果用户要求执行重要操作（如删除数据、修改配置等），请先使用 confirm_action 工具获取用户确认。\n"
  ++ "4. 执行代码后，请解释代码的执行结果。\n"
  ++ "5. 当用户上传文件时，文件会自动上传到沙箱环境的 /home/user/ 目录。在Python代码中通过该路径读取文件，例如: pd.read_csv(\x27/home/user/data.csv\x27)。\n"
  ++ "6. 你会收到系统通过沙盒自动解析的数据文件结构信息，包括：列名、数据类型、前5行数据、统计摘要和空值情况。请充分利用这些结构化信息来制定准确的数据分析方案，不要假设文件有你未看到的列或数据结构。\n"
  ++ "7. 如果收到文件的结构化预览信息，请先向用户简要描述数据概况（行列数、主要字段、数据类型等），然后根据用户需求制定分析方案，最后生成执行代码。\n"
  ++ "8. 【代码块独立完整原则】每次调用 execute_python 时，沙盒环境都是全新的，前一次执行的变量、导入的库、加载的数据在下一次执行中不可用。因此，每个代码块必须是完全独立的、可直接运行的完整代码，包括:\n"
  ++ "   - 所有必要的 import 语句\n"
  ++ "   - 重新读取/加载数据文件（如 pd.read_csv(\x27/home/user/xxx.csv\x27)）\n"
  ++ "   - 重新定义所有需要用到的变量和函数\n"
  ++ "   - 不得引用或依赖前一个代码块中定义的任何变量\n"
  ++ "   绝对不要假设之前的代码块已经执行过或其变量仍然存在。如果一个分析任务需要多个步骤，尽量将它们合并到一个代码块中执行。\n"
  ++ "9. 【生成文件自动保留】代码执行中生成的新文件（如清洗后的数据集、处理结果等）会自动保留在会话中。后续代码执行时，这些文件会被自动上传到沙盒的 /home/user/ 目录，可直接通过路径访问。当会话文件列表中同时存在原始文件和处理后的文件时，请根据用户需求选择合适的文件进行操作（通常应使用最新处理过的文件）。\n"
  ++ "10. 【matplotlib 图表规范】生成图表时务必遵守以下规范以避免重复显示：\n"
  ++ "   - 调用 plt.savefig() 保存图片后，必须紧接着调用 plt.close(\x27all\x27) 关闭图形\n"
  ++ "   - 不要在保存后再调用 plt.show()\n"
  ++ "   - 不要用 PIL/Image 打开刚保存的图片文件来显示\n"
  ++ "   - 正确模式: plt.savefig(\x27output.png\x27, dpi=150, bbox_inches=\x27tight\x27); plt.close(\x27all\x27); print(\x27图表已保存为 output.png\x27)\n"
  ++ "   - 如果不需要保存为文件只是展示，可以使用 plt.show() 但不要同时 savefig"

/-- A message of the HTTP request payload: `{role, content}`. -/
structure ChatMsg where
  role : String
  content : String
deriving DecidableEq, Repr

/-- `ToolResultPayload` of agent.ts.  Optional string fields keep JS
truthiness; absent arrays are `[]`, which the source treats identically
to present-but-empty. -/
structure ToolResultPayload where
  code : Option String
  stdout : Option String
  stderr : Option String
  error : Option String
  results : List ExecResult
  generatedFiles : List GenFile
deriving DecidableEq, Repr

/-- The description of one structured result inside the HITL follow-up
context (the `.map` body over `toolResult.results`). -/
def resultDescription (r : ExecResult) : String :=
  if strTruthy r.png then "[生成了图表]"
  else if strTruthy r.text then r.text.getD ""
  else if strTruthy r.html then "[生成了HTML内容]"
  else ""

/-- The `[系统消息]` human message appended when the request carries a
`toolResult` (continuation after HITL execution). -/
def toolResultMessage (tr : ToolResultPayload) : String :=
  let part1 : List String :=
    if strTruthy tr.code then
      ["执行的代码:\n```python\n" ++ tr.code.getD "" ++ "\n```"] else []
  let part2 : List String :=
    if strTruthy tr.stdout then ["标准输出:\n" ++ tr.stdout.getD ""] else []
  let part3 : List String :=
    if strTruthy tr.stderr then ["标准错误:\n" ++ tr.stderr.getD ""] else []
  let part4 : List String :=
    if strTruthy tr.error then ["错误: " ++ tr.error.getD ""] else []
  let descriptions := (tr.results.map resultDescription).filter (fun s => s ≠ "")
  let part5 : List String :=
    if tr.results.length > 0 ∧ descriptions.length > 0 then
      ["执行结果:\n" ++ String.intercalate "\n" descriptions] else []
  let part6 : List String :=
    if tr.generatedFiles.length > 0 then
      ["生成的新文件:\n"
        ++ String.intercalate "\n"
            (tr.generatedFiles.map (fun f =>
              "- /home/user/" ++ f.name ++ " (" ++ toString f.size ++ " bytes)"))
        ++ "\n这些文件已保存在会话中，后续代码执行时可通过上述路径访问。"]
    else []
  let resultParts := part1 ++ part2 ++ part3 ++ part4 ++ part5 ++ part6
  "[系统消息] 之前请求的Python代码已执行完毕，结果如下:\n\n"
    ++ String.intercalate "\n\n" resultParts
    ++ "\n\n请根据执行结果为用户提供分析和解释。"

/-- The per-file context block appended to the last user message for each
new file: `files.map((f) => "\n\n" + formatFileContext(f)).join("")`. -/
def newFileContextStr (fs : List FileInfo) : String :=
  String.join (fs.map (fun f => "\n\n" ++ formatFileContext f))

/-- The new-file injection step of `buildLangChainMessages`: with a
non-empty `files` array, append the new-file context to the message at the
last index when its role is `"user"`; every other message maps to itself. -/
def injectNewFileContext (messages : List ChatMsg)
    (files : Option (List FileInfo)) : List ChatMsg :=
  match files with
  | some fs =>
    if fs.length > 0 then
      messages.mapIdx (fun i msg =>
        if i == messages.length - 1 && msg.role == "user" then
          { msg with content := msg.content ++ newFileContextStr fs }
        else msg)
    else messages
  | none => messages

/-- `effectiveSessionFiles`: prefer a non-empty `sessionFiles`, fall back
to a non-empty `files`, else `[]`. -/
def effectiveSessionFiles (files sessionFiles : Option (List FileInfo)) :
    List FileInfo :=
  match sessionFiles with
  | some sf =>
    if sf.length > 0 then sf
    else match files with
      | some fs => if fs.length > 0 then fs else []
      | none => []
  | none =>
    match files with
    | some fs => if fs.length > 0 then fs else []
    | none => []

/-- The session-file context appended to the system prompt. -/
def sessionFileContextStr (files sessionFiles : Option (List FileInfo)) :
    String :=
  let eff := effectiveSessionFiles files sessionFiles
  if eff.length > 0 then
    "\n\n【当前会话中可用的数据文件】\n"
      ++ String.intercalate "\n\n" (eff.map formatFileContext)
  else ""

/-- Conversion of one request message to a LangChain message
(`user → HumanMessage`, `assistant → AIMessage`, anything else →
`HumanMessage`). -/
def toLangChainMsg (msg : ChatMsg) : BMsg :=
  if msg.role == "user" then BMsg.human msg.content
  else if msg.role == "assistant" then BMsg.ai msg.content []
  else BMsg.human msg.content

/-- `buildLangChainMessages` of agent.ts: system prompt with session-file
context, the processed request messages, and — when continuing after HITL
execution — the appended tool-result human message. -/
def buildLangChainMessages (messages : List ChatMsg)
    (files : Option (List FileInfo)) (toolResult : Option ToolResultPayload)
    (sessionFiles : Option (List FileInfo)) : List BMsg :=
  let processed := injectNewFileContext messages files
  (BMsg.system (SYSTEM_PROMPT ++ sessionFileContextStr files sessionFiles)
      :: processed.map toLangChainMsg)
    ++ (match toolResult with
        | some tr => [BMsg.human (toolResultMessage tr)]
        | none => [])

/-! ## Dataset profiler — classification and strategy engine
(second half of `app/api/chat/agent.ts`) -/

/-- `DatasetCategory`. -/
inductive DatasetCategory where
  | time_series
  | cross_sectional
  | text_heavy
  | geospatial
  | transactional
  | high_dimensional
  | general
deriving DecidableEq, Repr

/-- `NUMERIC_DTYPES` (pandas dtype strings counted as numeric). -/
def NUMERIC_DTYPES : List String :=
  ["int64", "int32", "int16", "int8",
   "float64", "float32", "float16",
   "uint8", "uint16", "uint32", "uint64",
   "Int64", "Int32", "Float64", "Float32"]

/-- `DATETIME_DTYPES`. -/
def DATETIME_DTYPES : List String :=
  ["datetime64[ns]", "datetime64", "datetime64[ns, UTC]",
   "datetime64[us]", "datetime64[ms]"]

/-- `CATEGORICAL_DTYPES`. -/
def CATEGORICAL_DTYPES : List String := ["object", "category", "string", "bool"]

/-- Case-insensitive alternation of plain substrings, the form of the
datetime/geo/text/amount name regexes (`/a|b|.../i`). -/
def testPatterns (pats : List String) (col : String) : Bool :=
  pats.any (fun p => containsSub (strToLower col) p)

/-- Alternatives of `DATETIME_PATTERNS`. -/
def DATETIME_NAME_PATTERNS : List String :=
  ["date", "time", "timestamp", "datetime", "日期", "时间", "created",
   "updated", "year", "month", "day"]

/-- Alternatives of `GEO_PATTERNS`. -/
def GEO_NAME_PATTERNS : List String :=
  ["latitude", "longitude", "lat", "lng", "lon", "geo", "coord", "经度",
   "纬度", "address", "城市", "city", "province", "country", "region"]

/-- Alternatives of `TEXT_PATTERNS`. -/
def TEXT_NAME_PATTERNS : List String :=
  ["description", "desc", "comment", "review", "text", "body", "content",
   "abstract", "summary", "title", "名称", "描述", "评论", "简介"]

/-- Alternatives of `AMOUNT_PATTERNS`. -/
def AMOUNT_NAME_PATTERNS : List String :=
  ["amount", "price", "cost", "revenue", "salary", "value", "total", "sum",
   "金额", "价格", "费用", "收入", "销售"]

/-- `ID_PATTERNS = /^id$|_id$|^uid$|^key$|^index$|编号|序号|code/i` — the
anchored alternatives are whole-name matches, the rest substring
matches. -/
def testIdPatterns (col : String) : Bool :=
  let s := strToLower col
  s == "id" || strEndsWith s "_id" || s == "uid" || s == "key" || s == "index"
    || containsSub s "编号" || containsSub s "序号" || containsSub s "code"

/-- The per-column accumulators of the counting loop of
`classifyDataset`. -/
structure ColStats where
  numericCount : Nat
  datetimeCount : Nat
  categoricalCount : Nat
  textLikelyCols : List String
  datetimeCols : List String
  geoCols : List String
  idCols : List String
  amountCols : List String
deriving DecidableEq, Repr

/-- The accumulators before the loop. -/
def emptyColStats : ColStats :=
  { numericCount := 0, datetimeCount := 0, categoricalCount := 0,
    textLikelyCols := [], datetimeCols := [], geoCols := [], idCols := [],
    amountCols := [] }

/-- `dtypes[col] || "object"` (the JS fallback also fires on an empty
string, which is falsy). -/
def dtypeOf (dtypes : List (String × String)) (col : String) : String :=
  let v := ((dtypes.find? (fun kv => kv.1 == col)).map Prod.snd).getD ""
  if v == "" then "object" else v

/-- The dtype-based classification of one loop iteration (the if/else-if
chain at the top of the `for (const col of cols)` body). -/
def dtypeStep (dtypes : List (String × String)) (acc : ColStats)
    (col : String) : ColStats :=
  let dtype := dtypeOf dtypes col
  if NUMERIC_DTYPES.contains dtype then
    { acc with numericCount := acc.numericCount + 1 }
  else if DATETIME_DTYPES.contains dtype then
    { acc with datetimeCount := acc.datetimeCount + 1,
               datetimeCols := acc.datetimeCols ++ [col] }
  else if CATEGORICAL_DTYPES.contains dtype then
    { acc with categoricalCount := acc.categoricalCount + 1 }
  else acc

/-- The name-based heuristic enrichment of one loop iteration, which only
ever adds column names to the tag lists. -/
def patternStep (acc : ColStats) (col : String) : ColStats :=
  let acc :=
    if testPatterns DATETIME_NAME_PATTERNS col
        && !(acc.datetimeCols.contains col) then
      { acc with datetimeCols := acc.datetimeCols ++ [col] }
    else acc
  let acc :=
    if testPatterns GEO_NAME_PATTERNS col then
      { acc with geoCols := acc.geoCols ++ [col] }
    else acc
  let acc :=
    if testPatterns TEXT_NAME_PATTERNS col then
      { acc with textLikelyCols := acc.textLikelyCols ++ [col] }
    else acc
  let acc :=
    if testIdPatterns col then { acc with idCols := acc.idCols ++ [col] }
    else acc
  let acc :=
    if testPatterns AMOUNT_NAME_PATTERNS col then
      { acc with amountCols := acc.amountCols ++ [col] }
    else acc
  acc

/-- One iteration of the `for (const col of cols)` loop: dtype-based
classification, then name-based heuristic enrichment. -/
def classifyColumn (dtypes : List (String × String)) (acc : ColStats)
    (col : String) : ColStats :=
  patternStep (dtypeStep dtypes acc col) col

/-- The whole counting loop. -/
def computeColStats (cols : List String) (dtypes : List (String × String)) :
    ColStats :=
  cols.foldl (classifyColumn dtypes) emptyColStats

/-- Exact fraction arithmetic standing in for the JS floating-point ratio
and score values.  Every ratio and score of the profiler is a fraction of
small integers, on which double-precision arithmetic performs the same
comparisons as exact rational arithmetic; comparisons are by cross
multiplication, so no normalisation is needed and everything reduces in
the kernel.  The denominator is kept positive by construction. -/
structure Frac where
  num : Int
  den : Nat
deriving DecidableEq, Repr

/-- Embed a natural number. -/
def Frac.ofNat (n : Nat) : Frac := { num := n, den := 1 }

/-- Fraction addition (no normalisation). -/
def Frac.add (a b : Frac) : Frac :=
  { num := a.num * b.den + b.num * a.den, den := a.den * b.den }

/-- Fraction multiplication (no normalisation). -/
def Frac.mul (a b : Frac) : Frac := { num := a.num * b.num, den := a.den * b.den }

/-- `a < b` by cross multiplication (valid for positive denominators). -/
def Frac.ltb (a b : Frac) : Bool := a.num * (b.den : Int) < b.num * (a.den : Int)

/-- `numericRatio` in the source (`numericCount / totalCols`, an exact
fraction in place of the JS float). -/
def numericShare (st : ColStats) (totalCols : Nat) : Frac :=
  if totalCols > 0 then { num := st.numericCount, den := totalCols }
  else Frac.ofNat 0

/-- `categoricalRatio` in the source. -/
def categoricalShare (st : ColStats) (totalCols : Nat) : Frac :=
  if totalCols > 0 then { num := st.categoricalCount, den := totalCols }
  else Frac.ofNat 0

/-- The missing-data heuristic
(`totalNulls > 0 && totalNulls / (totalRows * totalCols) > 0.01`; when the
denominator is zero the JS division yields Infinity, so the comparison
reduces to `totalNulls > 0`). -/
def hasMissingDataOf (nullCounts : List (String × Nat))
    (totalRows totalCols : Nat) : Bool :=
  let totalNulls : Nat := (nullCounts.map Prod.snd).foldl (fun s v => s + v) 0
  if totalRows * totalCols == 0 then
    decide (totalNulls > 0)
  else
    decide (totalNulls > 0)
      && Frac.ltb { num := 1, den := 100 }
           { num := totalNulls, den := totalRows * totalCols }

/-- The `scores` object in its key-insertion order (each category is
assigned at most once, by the chain of conditionals of the source, in this
textual order). -/
def scoreList (st : ColStats) (totalCols : Nat) : List (DatasetCategory × Frac) :=
  let nr := numericShare st totalCols
  let cr := categoricalShare st totalCols
  let hasDatetime := st.datetimeCols.length > 0
  (if hasDatetime ∧ Frac.ltb { num := 1, den := 2 } nr then
    [(DatasetCategory.time_series, (Frac.ofNat 3).add (nr.mul (Frac.ofNat 2)))]
   else if hasDatetime ∧ st.numericCount ≥ 2 then
    [(DatasetCategory.time_series, Frac.ofNat 2)]
   else [])
  ++ (if st.textLikelyCols.length ≥ 3 then
        [(DatasetCategory.text_heavy, Frac.ofNat 5)]
      else if st.textLikelyCols.length ≥ 2 then
        [(DatasetCategory.text_heavy, (Frac.ofNat 3).add cr)]
      else if st.textLikelyCols.length == 1
          ∧ Frac.ltb { num := 1, den := 2 } cr then
        [(DatasetCategory.text_heavy, Frac.ofNat 2)]
      else [])
  ++ (if st.geoCols.length ≥ 2 then [(DatasetCategory.geospatial, Frac.ofNat 4)]
      else [])
  ++ (if st.amountCols.length > 0 ∧ st.idCols.length > 0 ∧ hasDatetime then
        [(DatasetCategory.transactional,
          Frac.ofNat (4 + (if st.amountCols.length > 1 then 1 else 0)))]
      else [])
  ++ (if totalCols > 30 ∧ Frac.ltb { num := 7, den := 10 } nr then
        [(DatasetCategory.high_dimensional, Frac.ofNat 5)]
      else if totalCols > 15 ∧ Frac.ltb { num := 4, den := 5 } nr then
        [(DatasetCategory.high_dimensional, Frac.ofNat 3)]
      else [])
  ++ (if Frac.ltb { num := 3, den := 10 } nr then
        [(DatasetCategory.cross_sectional, Frac.ofNat 1)]
      else [])

/-- The category pick: start from `general` with `maxScore = 0` and keep
the first category whose score strictly exceeds the running maximum,
iterating in insertion order. -/
def pickCategory (scores : List (DatasetCategory × Frac)) : DatasetCategory :=
  (scores.foldl
    (fun (acc : DatasetCategory × Frac) p => if Frac.ltb acc.2 p.2 then p else acc)
    (DatasetCategory.general, Frac.ofNat 0)).1

/-- The tag list, built from all structural signals independently of the
winning category, in source order. -/
def tagList (st : ColStats) (totalRows totalCols : Nat)
    (nullCounts : List (String × Nat)) : List String :=
  let nr := numericShare st totalCols
  let cr := categoricalShare st totalCols
  let hasDatetime := st.datetimeCols.length > 0
  (if hasDatetime then ["temporal"] else [])
  ++ (if st.geoCols.length ≥ 2 then ["geospatial"] else [])
  ++ (if st.textLikelyCols.length ≥ 1 then ["text"] else [])
  ++ (if st.amountCols.length > 0 ∧ st.idCols.length > 0 ∧ hasDatetime then
        ["transactional"] else [])
  ++ (if totalCols > 15 ∧ Frac.ltb { num := 7, den := 10 } nr then
        ["high_dimensional"] else [])
  ++ (if hasMissingDataOf nullCounts totalRows totalCols then ["missing_data"]
      else [])
  ++ (if Frac.ltb { num := 3, den := 5 } nr then ["numeric_heavy"] else [])
  ++ (if Frac.ltb { num := 3, den := 5 } cr then ["categorical_heavy"] else [])

/-- `buildSummary`. -/
def buildSummary (rows cols numericCount categoricalCount : Nat)
    (datetimeCols geoCols textCols : List String) : String :=
  let base := [toString rows ++ "行 × " ++ toString cols ++ "列",
    toString numericCount ++ "个数值列, " ++ toString categoricalCount ++ "个分类列"]
  let parts := base
    ++ (if datetimeCols.length > 0 then
          ["时间列: " ++ String.intercalate ", " datetimeCols] else [])
    ++ (if geoCols.length > 0 then
          ["地理列: " ++ String.intercalate ", " geoCols] else [])
    ++ (if textCols.length > 0 then
          ["文本列: " ++ String.intercalate ", " textCols] else [])
  String.intercalate " | " parts

/-- `DatasetProfile` (the two ratio fields carry the source names
`numericRatio` / `categoricalRatio`). -/
structure DatasetProfile where
  category : DatasetCategory
  tags : List String
  summary : String
  numericShare : Frac
  categoricalShare : Frac
  hasDatetime : Bool
  hasText : Bool
  hasMissingData : Bool
  rowCount : Nat
  colCount : Nat
deriving DecidableEq, Repr

/-- `AnalysisStrategy`, reduced to the fields the selection logic computes
from the profile (`steps` and `tools` are fixed string-list constants per
template, independent of the input, and are elided). -/
structure AnalysisStrategy where
  name : String
  reason : String
  priority : Nat
deriving DecidableEq, Repr

/-- Insert a strategy into a descending-priority list, after every element
of greater or equal priority (the stable position). -/
def insertByPriorityDesc (s : AnalysisStrategy) :
    List AnalysisStrategy → List AnalysisStrategy
  | [] => [s]
  | t :: ts =>
    if s.priority > t.priority then s :: t :: ts
    else t :: insertByPriorityDesc s ts

/-- Stable sort by descending priority, the behaviour of the source's
`strategies.sort((a, b) => b.priority - a.priority)` (ties keep
construction order). -/
def sortByPriorityDesc (l : List AnalysisStrategy) : List AnalysisStrategy :=
  l.foldr insertByPriorityDesc []

/-- `selectStrategies`: the fixed catalog of independently gated strategy
templates, in source order, then sorted by descending priority (stable). -/
def selectStrategies (profile : DatasetProfile) (st : ColStats) :
    List AnalysisStrategy :=
  let strategies : List AnalysisStrategy :=
    [{ name := "探索性数据分析 (EDA)", reason := "任何数据集的分析第一步",
       priority := 10 }]
    ++ (if profile.hasMissingData then
          [{ name := "缺失值分析与处理", reason := "数据集存在显著缺失值",
             priority := 9 }]
        else [])
    ++ (if profile.category = DatasetCategory.time_series ∨ profile.hasDatetime then
          [{ name := "时间序列分析",
             reason := "检测到时间列: " ++ String.intercalate ", " st.datetimeCols,
             priority := 9 }]
        else [])
    ++ (if st.numericCount ≥ 3 then
          [{ name := "相关性与回归分析",
             reason := "有 " ++ toString st.numericCount
               ++ " 个数值列，适合研究变量间关系",
             priority := 8 }]
        else [])
    ++ (if st.categoricalCount ≥ 1 ∧ st.numericCount ≥ 1 then
          [{ name := "分组对比分析",
             reason := "同时存在分类变量和数值变量，可按类别比较",
             priority := 7 }]
        else [])
    ++ (if profile.tags.contains "high_dimensional" ∨ st.numericCount > 10 then
          [{ name := "降维与特征分析",
             reason := "数值列较多（" ++ toString st.numericCount
               ++ "个），适合降维探索",
             priority := 7 }]
        else [])
    ++ (if st.numericCount ≥ 3 ∧ st.categoricalCount ≤ st.numericCount then
          [{ name := "聚类分析", reason := "多个数值特征，适合发现自然分组模式",
             priority := 6 }]
        else [])
    ++ (if profile.hasText ∨ profile.category = DatasetCategory.text_heavy then
          [{ name := "文本分析",
             reason := "检测到文本列: " ++ String.intercalate ", " st.textLikelyCols,
             priority := 7 }]
        else [])
    ++ (if profile.tags.contains "geospatial" then
          [{ name := "地理空间分析",
             reason := "检测到地理列: " ++ String.intercalate ", " st.geoCols,
             priority := 7 }]
        else [])
    ++ (if profile.tags.contains "transactional" then
          [{ name := "业务/交易分析",
             reason := "检测到交易类数据特征（ID + 时间 + 金额）",
             priority := 8 }]
        else [])
    ++ (if st.numericCount ≥ 2 then
          [{ name := "分布与异常值分析",
             reason := "数值列需要检测分布特征和异常值",
             priority := 5 }]
        else [])
  sortByPriorityDesc strategies

/-- `classifyDataset`: `null` without a rich preview or with an empty
column list, else the profile and the sorted strategy list. -/
def classifyDataset (file : FileInfo) :
    Option (DatasetProfile × List AnalysisStrategy) :=
  match file.richPreview with
  | none => none
  | some rp =>
    if rp.columns.length == 0 then none
    else
      let totalCols := rp.columns.length
      let totalRows := rp.shape.1
      let st := computeColStats rp.columns rp.dtypes
      let category := pickCategory (scoreList st totalCols)
      let profile : DatasetProfile :=
        { category := category,
          tags := tagList st totalRows totalCols rp.nullCounts,
          summary := buildSummary totalRows totalCols st.numericCount
            st.categoricalCount st.datetimeCols st.geoCols st.textLikelyCols,
          numericShare := numericShare st totalCols,
          categoricalShare := categoricalShare st totalCols,
          hasDatetime := st.datetimeCols.length > 0,
          hasText := st.textLikelyCols.length > 0,
          hasMissingData := hasMissingDataOf rp.nullCounts totalRows totalCols,
          rowCount := totalRows,
          colCount := totalCols }
      some (profile, selectStrategies profile st)

/-! ## Theorems

One theorem per claim of the specification, with shared helper lemmas
first.
-/

/-- The dedup loop only ever drops elements, keeping order. -/
theorem dedupGo_sublist (rs : List ExecResult) :
    ∀ seen, (dedupGo seen rs).Sublist rs := by
  induction rs with
  | nil => intro seen; simp [dedupGo]
  | cons r rs ih =>
    intro seen
    cases hp : r.png with
    | none =>
      simp only [dedupGo, hp]
      exact (ih seen).cons₂ r
    | some p =>
      simp only [dedupGo, hp]
      split
      · exact (ih seen).cons r
      · exact (ih _).cons₂ r

/-- The seen-set of the dedup loop represents exactly the fingerprints of
the earlier png-carrying results; under that invariant the loop agrees
with the spec-side description. -/
theorem dedupGo_eq_specGo (rs : List ExecResult) :
    ∀ (seen : List String) (earlier : List ExecResult),
      (∀ fp, fp ∈ seen ↔ ∃ s ∈ earlier, ∃ q, s.png = some q ∧ q.take 200 = fp) →
      dedupGo seen rs = dedupSpecGo earlier rs := by
  induction rs with
  | nil => intro seen earlier _; rfl
  | cons r rs ih =>
    intro seen earlier h
    cases hp : r.png with
    | none =>
      have hany : (earlier.any fun s => sharesPngFingerprint s r) = false := by
        simp only [List.any_eq_false]
        intro s _
        simp only [sharesPngFingerprint, hp]
        cases s.png <;> simp
      simp only [dedupGo, dedupSpecGo, hp, hany, Bool.false_eq_true, if_false]
      congr 1
      apply ih
      intro fp
      rw [h fp]
      constructor
      · rintro ⟨s, hs, q, hq, htake⟩
        exact ⟨s, List.mem_append.mpr (Or.inl hs), q, hq, htake⟩
      · rintro ⟨s, hs, q, hq, htake⟩
        rcases List.mem_append.mp hs with hs | hs
        · exact ⟨s, hs, q, hq, htake⟩
        · rw [List.mem_singleton] at hs
          subst hs
          rw [hp] at hq
          cases hq
    | some p =>
      have hiff : ((p.take 200) ∈ seen)
          ↔ (earlier.any fun s => sharesPngFingerprint s r) = true := by
        rw [h, List.any_eq_true]
        constructor
        · rintro ⟨s, hs, q, hq, htake⟩
          refine ⟨s, hs, ?_⟩
          simp [sharesPngFingerprint, hq, hp, htake]
        · rintro ⟨s, hs, hshare⟩
          cases hq : s.png with
          | none =>
            rw [sharesPngFingerprint, hq, hp] at hshare
            cases hshare
          | some q =>
            rw [sharesPngFingerprint, hq, hp] at hshare
            exact ⟨s, hs, q, hq, by simpa using hshare⟩
      by_cases hmem : (p.take 200) ∈ seen
      · have hany : (earlier.any fun s => sharesPngFingerprint s r) = true :=
          hiff.mp hmem
        simp only [dedupGo, dedupSpecGo, hp, hany, if_true, if_pos hmem]
        apply ih
        intro fp
        rw [h fp]
        constructor
        · rintro ⟨s, hs, q, hq, htake⟩
          exact ⟨s, List.mem_append.mpr (Or.inl hs), q, hq, htake⟩
        · rintro ⟨s, hs, q, hq, htake⟩
          rcases List.mem_append.mp hs with hs | hs
          · exact ⟨s, hs, q, hq, htake⟩
          · rw [List.mem_singleton] at hs
            subst hs
            rw [hp] at hq
            cases hq
            exact (h fp).mp (htake ▸ hmem)
      · have hany : (earlier.any fun s => sharesPngFingerprint s r) = false :=
          Bool.eq_false_iff.mpr (fun hc => hmem (hiff.mpr hc))
        simp only [dedupGo, dedupSpecGo, hp, hany, Bool.false_eq_true, if_false,
          if_neg hmem]
        congr 1
        apply ih
        intro fp
        constructor
        · intro hfp
          rcases List.mem_cons.mp hfp with hfp | hfp
          · exact ⟨r, List.mem_append.mpr (Or.inr (List.mem_singleton.mpr rfl)),
              p, hp, hfp.symm⟩
          · obtain ⟨s, hs, q, hq, htake⟩ := (h fp).mp hfp
            exact ⟨s, List.mem_append.mpr (Or.inl hs), q, hq, htake⟩
        · rintro ⟨s, hs, q, hq, htake⟩
          rcases List.mem_append.mp hs with hs | hs
          · exact List.mem_cons.mpr (Or.inr ((h fp).mpr ⟨s, hs, q, hq, htake⟩))
          · rw [List.mem_singleton] at hs
            subst hs
            rw [hp] at hq
            cases hq
            exact List.mem_cons.mpr (Or.inl htake.symm)

/-- C5.  For every execution result list returned by the execute endpoint,
among structured results carrying an image payload, a result whose encoded
payload shares the same first-200-character prefix with an earlier result
in the list is dropped, only the first occurrence is kept, and results
with differing prefixes or with no image payload are all kept in their
original order: `dedupResults` coincides with the spec-side description
`dedupSpec` and is an order-preserving sublist of its input. -/
theorem C5_image_dedup_confirmed (rs : List ExecResult) :
    dedupResults rs = dedupSpec rs ∧ (dedupResults rs).Sublist rs := by
  constructor
  · exact dedupGo_eq_specGo rs [] [] (by simp)
  · exact dedupGo_sublist rs []

/-- Sum of the sizes of a directory-entry list. -/
def sumOfEntrySizes (es : List DirEntry) : Nat :=
  (es.map DirEntry.size).foldr (· + ·) 0

/-- The collection loop keeps an order-preserving selection of its input,
with names and sizes intact. -/
theorem collectGo_sublist (es : List DirEntry) :
    ∀ total, (collectGo total es).Sublist
      (es.map (fun d => ({ name := d.name, size := d.size } : GenFile))) := by
  induction es with
  | nil => intro total; simp [collectGo]
  | cons e es ih =>
    intro total
    simp only [collectGo, List.map_cons]
    split
    · exact (ih _).cons₂ _
    · exact (ih total).cons _

/-- Every collected file satisfies the per-file ceiling. -/
theorem collectGo_size_bound (es : List DirEntry) :
    ∀ total gf, gf ∈ collectGo total es → gf.size ≤ MAX_SINGLE_FILE_SIZE := by
  induction es with
  | nil => intro total gf h; simp [collectGo] at h
  | cons e es ih =>
    intro total gf h
    rw [collectGo] at h
    by_cases hc : e.size ≤ MAX_SINGLE_FILE_SIZE ∧ total + e.size ≤ MAX_TOTAL_FILE_SIZE
    · rw [if_pos hc] at h
      rcases List.mem_cons.mp h with h | h
      · subst h; exact hc.1
      · exact ih _ _ h
    · rw [if_neg hc] at h
      exact ih _ _ h

/-- The running total plus the sizes still to be collected stays within
the cumulative ceiling. -/
theorem collectGo_total_bound (es : List DirEntry) :
    ∀ total, total ≤ MAX_TOTAL_FILE_SIZE →
      total + sumSizes (collectGo total es) ≤ MAX_TOTAL_FILE_SIZE := by
  induction es with
  | nil => intro total ht; simpa [collectGo, sumSizes] using ht
  | cons e es ih =>
    intro total ht
    rw [collectGo]
    by_cases hc : e.size ≤ MAX_SINGLE_FILE_SIZE ∧ total + e.size ≤ MAX_TOTAL_FILE_SIZE
    · rw [if_pos hc]
      have h := ih (total + e.size) hc.2
      simp only [sumSizes, List.map_cons, List.foldr_cons] at h ⊢
      omega
    · rw [if_neg hc]; exact ih total ht

/-- When every eligible file fits both ceilings, all of them are
collected. -/
theorem collectGo_all_included (es : List DirEntry) :
    ∀ total, (∀ d ∈ es, d.size ≤ MAX_SINGLE_FILE_SIZE) →
      total + sumOfEntrySizes es ≤ MAX_TOTAL_FILE_SIZE →
      collectGo total es
        = es.map (fun d => ({ name := d.name, size := d.size } : GenFile)) := by
  induction es with
  | nil => intro total _ _; rfl
  | cons e es ih =>
    intro total hall htot
    simp only [sumOfEntrySizes, List.map_cons, List.foldr_cons] at htot
    have h1 : e.size ≤ MAX_SINGLE_FILE_SIZE := hall e (List.mem_cons_self e es)
    have h2 : total + e.size ≤ MAX_TOTAL_FILE_SIZE := by omega
    rw [collectGo, if_pos ⟨h1, h2⟩,
      ih (total + e.size) (fun d hd => hall d (List.mem_cons_of_mem e hd))
        (by simp only [sumOfEntrySizes]; omega)]
    simp

/-- C6.  For every execute-endpoint run: generated-file discovery happens
only when execution did not fatally error; it considers only non-hidden
files of the mount directory outside the staged input set; each collected
file respects the 5MB per-file ceiling and the collected total respects
the 20MB cumulative ceiling, offending files being excluded whole (the
survivors keep their exact name and size, in order); and when every
eligible file fits both ceilings, all of them are collected. -/
theorem C6_generated_file_discovery_confirmed (e : String)
    (entries : List DirEntry) (uploaded : List String) :
    discoverGeneratedFiles (some e) entries uploaded = [] ∧
    (discoverGeneratedFiles none entries uploaded).Sublist
      ((eligibleEntries entries uploaded).map
        (fun d => ({ name := d.name, size := d.size } : GenFile))) ∧
    ((discoverGeneratedFiles none entries uploaded).all
      (fun gf => decide (gf.size ≤ MAX_SINGLE_FILE_SIZE))) = true ∧
    sumSizes (discoverGeneratedFiles none entries uploaded)
      ≤ MAX_TOTAL_FILE_SIZE ∧
    ((∀ d ∈ eligibleEntries entries uploaded, d.size ≤ MAX_SINGLE_FILE_SIZE) →
      sumOfEntrySizes (eligibleEntries entries uploaded) ≤ MAX_TOTAL_FILE_SIZE →
      discoverGeneratedFiles none entries uploaded
        = (eligibleEntries entries uploaded).map
            (fun d => { name := d.name, size := d.size })) := by
  refine ⟨rfl, ?_, ?_, ?_, ?_⟩
  · exact collectGo_sublist _ 0
  · simp only [List.all_eq_true, decide_eq_true_eq]
    intro gf h
    exact collectGo_size_bound _ 0 gf h
  · simpa using collectGo_total_bound (eligibleEntries entries uploaded) 0
      (Nat.zero_le _)
  · intro hall htot
    exact collectGo_all_included _ 0 hall (by simpa using htot)

/-- C6 witness: a run with one eligible generated file, one hidden file
and one staged input collects exactly the eligible file. -/
theorem C6_witness :
    discoverGeneratedFiles none
      [⟨"out.csv", true, 1000⟩, ⟨".hidden", true, 5⟩, ⟨"in.csv", true, 7⟩]
      ["in.csv"]
      = [⟨"out.csv", 1000⟩] := by
  have h := (C6_generated_file_discovery_confirmed "err"
    [⟨"out.csv", true, 1000⟩, ⟨".hidden", true, 5⟩, ⟨"in.csv", true, 7⟩]
    ["in.csv"]).2.2.2.2 (by decide) (by decide)
  simpa using h

/-- C3.  For every invocation of the sandbox execution orchestrator
(execute and preview endpoints), teardown (`sandbox.kill()`) is invoked
exactly once whenever a sandbox was provisioned — on success, on an
execution error raised by the code, and when the orchestrator throws
before running code — never when provisioning itself failed, and a
teardown failure never changes the returned response. -/
theorem C3_teardown_confirmed (env : ExecuteEnv) (penv : PreviewEnv) :
    (executePOST env).2 = (if executeProvisioned env then 1 else 0) ∧
    (executePOST { env with killFails := true }).1
      = (executePOST { env with killFails := false }).1 ∧
    (previewPOST penv).2 = (if previewProvisioned penv then 1 else 0) ∧
    (previewPOST { penv with killFails := true }).1
      = (previewPOST { penv with killFails := false }).1 := by
  refine ⟨?_, ?_, ?_, ?_⟩
  · rcases env with ⟨tool, code, c, u, r, so, se, rr, re, l, en, un, kf⟩
    simp only [executePOST, executeProvisioned]
    cases code <;> cases c <;> cases u <;> cases r <;>
      by_cases h : tool = "execute_python" <;>
      simp_all
  · rfl
  · by_cases h1 : penv.fileGiven
    · by_cases h2 : penv.fileName.length > 255
      · simp [previewPOST, previewProvisioned, h1, h2]
      · by_cases h3 : penv.contentBytes > MAX_PREVIEW_FILE_SIZE
        · simp [previewPOST, previewProvisioned, h1, h2, h3]
        · by_cases h4 : SUPPORTED_FORMATS.contains (extOf penv.fileName)
          · have h4m : extOf penv.fileName ∈ SUPPORTED_FORMATS := by
              simpa using h4
            by_cases h5 : penv.createOk
            · by_cases h6 : penv.bodyThrows
              · simp [previewPOST, previewProvisioned, h1, h2, h3, h4, h4m, h5,
                  h6]
              · rcases hre : penv.runExecError with _ | e <;>
                  simp [previewPOST, previewProvisioned, h1, h2, h3, h4, h4m,
                    h5, h6, hre]
            · simp [previewPOST, previewProvisioned, h1, h2, h3, h4, h4m, h5]
          · have h4m : ¬ extOf penv.fileName ∈ SUPPORTED_FORMATS := by
              simpa using h4
            simp [previewPOST, previewProvisioned, h1, h2, h3, h4, h4m]
    · simp [previewPOST, previewProvisioned, h1]
  · rfl

/-- The frames emitted for graph events never include `done` or `error`
frames (those are produced only after the event loop). -/
theorem emitForEvent_no_done_no_error (ev : GraphEvent) :
    Frame.done ∉ emitForEvent ev ∧
    ∀ f ∈ emitForEvent ev, f.isError = false := by
  cases ev with
  | chatModelStream content =>
    rcases content with _ | c
    · simp [emitForEvent]
    · by_cases h : c.length > 0 <;> simp [emitForEvent, h, Frame.isError]
  | chatModelEnd toolCalls =>
    constructor
    · intro hmem
      rw [emitForEvent, List.mem_filterMap] at hmem
      obtain ⟨tc, _, htc⟩ := hmem
      by_cases h : tc.name == "execute_python" <;> simp [h] at htc
    · intro f hf
      rw [emitForEvent, List.mem_filterMap] at hf
      obtain ⟨tc, _, htc⟩ := hf
      by_cases h : tc.name == "execute_python" <;> simp [h] at htc
      subst htc; rfl
  | toolEnd name output input => simp [emitForEvent, Frame.isError]

/-- The event-loop frames of a run contain no `done` frame. -/
theorem eventFrames_no_done (events : List GraphEvent) :
    (events.flatMap emitForEvent).count Frame.done = 0 := by
  rw [List.count_eq_zero]
  intro hmem
  rw [List.mem_flatMap] at hmem
  obtain ⟨ev, _, hf⟩ := hmem
  exact (emitForEvent_no_done_no_error ev).1 hf

/-- C1 counterexample.  A turn in which the graph event stream throws
immediately: the route emits a single `error` frame and closes — no
terminal `done` frame follows the `error` frame, refuting the claim that
`done` is emitted even after an error. -/
theorem C1_counterexample :
    streamChatPOST { events := [], err := some ("TypeError", "boom") }
      = [Frame.errorFrame (some "execution_error") "Error: boom"] ∧
    (streamChatPOST { events := [], err := some ("TypeError", "boom") }).count
      Frame.done = 0 ∧
    (streamChatPOST { events := [], err := some ("TypeError", "boom") }).getLast?
      ≠ some Frame.done := by
  refine ⟨rfl, by decide, by decide⟩

/-- C1, amended.  On a successful stream the chat route emits exactly one
`done` frame and it is the final frame; on a failed stream the single
`error` frame (typed `recursion_limit` or `execution_error`) is the final
frame and no `done` frame is emitted at all. -/
theorem C1_done_terminal_amended (run : GraphRun) :
    (run.err = none →
      (streamChatPOST run).count Frame.done = 1 ∧
      (streamChatPOST run).getLast? = some Frame.done) ∧
    (∀ errName errMsg, run.err = some (errName, errMsg) →
      (streamChatPOST run).count Frame.done = 0 ∧
      (streamChatPOST run).getLast?
        = some (Frame.errorFrame
            (some (if errName == "RecursionError" then "recursion_limit"
                   else "execution_error"))
            ("Error: " ++ errMsg))) := by
  constructor
  · intro h
    rw [streamChatPOST, h]
    constructor
    · rw [List.count_append, eventFrames_no_done]
      rfl
    · exact List.getLast?_concat _
  · intro errName errMsg h
    rw [streamChatPOST, h]
    constructor
    · rw [List.count_append, eventFrames_no_done]
      simp [List.count_singleton]
    · exact List.getLast?_concat _

/-- A successful one-chunk run of the graph stream. -/
def runOkExample : GraphRun :=
  { events := [GraphEvent.chatModelStream (some "你好")], err := none }

/-- A run whose event iteration throws a `GraphRecursionError`. -/
def runErrExample : GraphRun :=
  { events := [], err := some ("GraphRecursionError", "x") }

/-- C1 witness: a successful one-chunk turn carries exactly one terminal
`done`; a throwing turn ends on its `error` frame. -/
theorem C1_witness :
    ((streamChatPOST runOkExample).count Frame.done = 1 ∧
      (streamChatPOST runOkExample).getLast? = some Frame.done) ∧
    (streamChatPOST runErrExample).getLast?
      = some (Frame.errorFrame (some "execution_error") "Error: x") := by
  refine ⟨(C1_done_terminal_amended runOkExample).1 rfl, ?_⟩
  have h := ((C1_done_terminal_amended runErrExample).2
    "GraphRecursionError" "x" rfl).2
  simpa using h

/-- The per-call frames of one manual-loop iteration are pending/tool-call
frames: never `error`, never `done`. -/
theorem callFrames_no_error_no_done (toolExec : String → String → String) :
    ∀ tcs, ∀ f ∈ callFrames toolExec tcs, f.isError = false ∧ f ≠ Frame.done := by
  intro tcs
  induction tcs with
  | nil => intro f hf; simp [callFrames] at hf
  | cons tc tcs ih =>
    intro f hf
    rw [callFrames] at hf
    by_cases hb : boundToolNames.contains tc.name
    · rw [if_pos hb] at hf
      rcases List.mem_cons.mp hf with hf | hf
      · subst hf
        by_cases hp : tc.name == "execute_python" <;> simp [hp, Frame.isError]
      · exact ih f hf
    · rw [if_neg hb] at hf
      exact ih f hf

/-- The manual loop performs at most `fuel` model invocations, exactly
`fuel` of them when it was truncated, and emits neither `error` nor `done`
frames itself. -/
theorem agentLoopGo_props (oracle : List BMsg → AIResp)
    (toolExec : String → String → String) :
    ∀ fuel msgs,
      (agentLoopGo oracle toolExec fuel msgs).agentInvocations ≤ fuel ∧
      ((agentLoopGo oracle toolExec fuel msgs).truncated = true →
        (agentLoopGo oracle toolExec fuel msgs).agentInvocations = fuel) ∧
      (∀ f ∈ (agentLoopGo oracle toolExec fuel msgs).frames,
        f.isError = false ∧ f ≠ Frame.done) := by
  intro fuel
  induction fuel with
  | zero =>
    intro msgs
    refine ⟨Nat.le_refl _, fun _ => rfl, ?_⟩
    intro f hf
    simp [agentLoopGo] at hf
  | succ n ih =>
    intro msgs
    have htext : ∀ f ∈ (oracle msgs).contentChunks.filterMap
        (fun c => if c.length > 0 then some (Frame.textDelta c) else none),
        f.isError = false ∧ f ≠ Frame.done := by
      intro f hf
      rw [List.mem_filterMap] at hf
      obtain ⟨c, _, hc⟩ := hf
      by_cases h : c.length > 0 <;> simp [h] at hc
      subst hc; simp [Frame.isError]
    simp only [agentLoopGo]
    by_cases h1 : (oracle msgs).toolCalls.length > 0
    · rw [if_pos h1]
      by_cases h2 : (oracle msgs).toolCalls.any (fun tc => tc.name == "execute_python")
      · rw [if_pos h2]
        refine ⟨Nat.succ_le_succ (Nat.zero_le _), ?_, ?_⟩
        · intro h; exact absurd h (by simp)
        · intro f hf
          rcases List.mem_append.mp hf with hf | hf
          · exact htext f hf
          · exact callFrames_no_error_no_done toolExec _ f hf
      · rw [if_neg h2]
        obtain ⟨hle, htr, hfr⟩ := ih (msgs
          ++ [BMsg.ai (String.join (oracle msgs).contentChunks) (oracle msgs).toolCalls]
          ++ collectToolMessages toolExec (oracle msgs).toolCalls)
        refine ⟨Nat.succ_le_succ hle, fun h => congrArg Nat.succ (htr h), ?_⟩
        intro f hf
        rcases List.mem_append.mp hf with hf | hf
        · rcases List.mem_append.mp hf with hf | hf
          · exact htext f hf
          · exact callFrames_no_error_no_done toolExec _ f hf
        · exact hfr f hf
    · rw [if_neg h1]
      refine ⟨Nat.succ_le_succ (Nat.zero_le _), ?_, htext⟩
      intro h
      exact absurd h (by simp)

/-- An LLM collaborator that requests the safe `calculate` tool on every
turn — a pathological tool-call loop. -/
def loopingOracle : List BMsg → AIResp := fun _ =>
  { contentChunks := [],
    toolCalls := [{ id := "call-1", name := "calculate", args := "1+1" }] }

/-- A tool-execution collaborator returning a fixed JSON string. -/
def constToolExec : String → String → String :=
  fun _ _ => "\x7b\x22type\x22:\x22calculation\x22\x7d"

/-- C4 counterexample.  Under the always-tool-calling model the manual
loop exhausts its 10-iteration ceiling, yet the stream contains no `error`
frame and ends with a normal `done` — the truncation is silent, refuting
the claim that exceeding the ceiling surfaces a distinct error kind. -/
theorem C4_counterexample :
    (streamChatPOSTManualLoop loopingOracle constToolExec
      [BMsg.human "hi"]).truncated = true ∧
    (streamChatPOSTManualLoop loopingOracle constToolExec
      [BMsg.human "hi"]).frames.filter Frame.isError = [] ∧
    (streamChatPOSTManualLoop loopingOracle constToolExec
      [BMsg.human "hi"]).frames.getLast? = some Frame.done := by
  refine ⟨by decide, by decide, by decide⟩

/-- C4, amended.  The manual-loop chat route bounds the AGENT ⇄ TOOLS
cycle by a hard ceiling of 10 model invocations, but a turn that exceeds
the ceiling is silently truncated: the loop stops after exactly 10
invocations and the stream still ends with a normal `done` frame and
contains no `error` frame.  (The LangGraph route instead bounds the cycle
with `recursionLimit: 25` and surfaces the resulting throw as the single
terminal `error` frame described in the C1 theorems.) -/
theorem C4_iteration_ceiling_amended (oracle : List BMsg → AIResp)
    (toolExec : String → String → String) (initMsgs : List BMsg) :
    (streamChatPOSTManualLoop oracle toolExec initMsgs).agentInvocations
      ≤ MAX_ITERATIONS ∧
    ((streamChatPOSTManualLoop oracle toolExec initMsgs).truncated = true →
      (streamChatPOSTManualLoop oracle toolExec initMsgs).agentInvocations
        = MAX_ITERATIONS) ∧
    (streamChatPOSTManualLoop oracle toolExec initMsgs).frames.filter
      Frame.isError = [] ∧
    (streamChatPOSTManualLoop oracle toolExec initMsgs).frames.getLast?
      = some Frame.done := by
  obtain ⟨hle, htr, hfr⟩ := agentLoopGo_props oracle toolExec MAX_ITERATIONS initMsgs
  refine ⟨hle, htr, ?_, ?_⟩
  · rw [streamChatPOSTManualLoop]
    rw [List.filter_eq_nil_iff]
    intro f hf
    rcases List.mem_append.mp hf with hf | hf
    · intro hc
      rw [(hfr f hf).1] at hc
      cases hc
    · rw [List.mem_singleton] at hf
      subst hf
      simp [Frame.isError]
  · exact List.getLast?_concat _

/-- C4 witness: the pathological always-tool-calling turn hits the ceiling
after exactly 10 model invocations. -/
theorem C4_witness :
    (streamChatPOSTManualLoop loopingOracle constToolExec
      [BMsg.human "hi"]).agentInvocations = MAX_ITERATIONS := by
  exact (C4_iteration_ceiling_amended loopingOracle constToolExec
    [BMsg.human "hi"]).2.1 (by decide)

/-- C2.  After an AGENT step that produced the assistant message
`BMsg.ai content tcs`: no tool calls ends the turn; any `execute_python`
call ends the turn immediately — the graph run stops with no tool message
appended, so no co-requested safe call is auto-executed; otherwise (all
calls in the safe registry) control routes to the tools node, and the next
AGENT invocation starts from the history extended with one tool result per
requested call, in call order. -/
theorem C2_routing_confirmed (oracle : List BMsg → String × List ToolCallReq)
    (toolExec : String → String → String) (fuel : Nat) (msgs : List BMsg)
    (content : String) (tcs : List ToolCallReq) :
    (tcs = [] → routeAfterAgent (msgs ++ [BMsg.ai content tcs]) = Route.endRoute) ∧
    ((∃ tc ∈ tcs, tc.name = "execute_python") →
      routeAfterAgent (msgs ++ [BMsg.ai content tcs]) = Route.endRoute ∧
      (oracle msgs = (content, tcs) →
        runGraph oracle toolExec (fuel + 1) msgs
          = some (msgs ++ [BMsg.ai content tcs]))) ∧
    (tcs ≠ [] → (∀ tc ∈ tcs, tc.name ∈ safeToolNames) →
      routeAfterAgent (msgs ++ [BMsg.ai content tcs]) = Route.toolsNode ∧
      (oracle msgs = (content, tcs) →
        runGraph oracle toolExec (fuel + 1) msgs
          = runGraph oracle toolExec fuel
              (msgs ++ [BMsg.ai content tcs]
                ++ tcs.map (fun tc =>
                    BMsg.toolMsg tc.id (toolExec tc.name tc.args))))) := by
  refine ⟨?_, ?_, ?_⟩
  · intro h
    subst h
    rw [routeAfterAgent, List.getLast?_concat]
    simp
  · intro hex
    obtain ⟨tc, htc, hname⟩ := hex
    have hroute : routeAfterAgent (msgs ++ [BMsg.ai content tcs]) = Route.endRoute := by
      rw [routeAfterAgent, List.getLast?_concat]
      have hlen : tcs.length > 0 := List.length_pos_of_mem htc
      have hany : tcs.any (fun tc => tc.name == "execute_python") = true :=
        List.any_eq_true.mpr ⟨tc, htc, by simp [hname]⟩
      simp [hlen, hany]
    refine ⟨hroute, ?_⟩
    intro horacle
    rw [runGraph, horacle, hroute]
  · intro hne hsafe
    have hany : tcs.any (fun tc => tc.name == "execute_python") = false := by
      rw [List.any_eq_false]
      intro tc htc
      have h := hsafe tc htc
      intro hc
      rw [beq_iff_eq] at hc
      rw [hc] at h
      exact absurd h (by decide)
    have hlen : tcs.length > 0 := by
      cases tcs with
      | nil => exact absurd rfl hne
      | cons a l => simp
    have hroute : routeAfterAgent (msgs ++ [BMsg.ai content tcs]) = Route.toolsNode := by
      rw [routeAfterAgent, List.getLast?_concat]
      simp [hlen, hany]
    refine ⟨hroute, ?_⟩
    intro horacle
    rw [runGraph, horacle, hroute, toolNodeStep, List.getLast?_concat]

/-- A safe `calculate` tool call. -/
def safeCallExample : ToolCallReq := { id := "c1", name := "calculate", args := "1+1" }

/-- An approval-required `execute_python` tool call. -/
def pyCallExample : ToolCallReq :=
  { id := "c2", name := "execute_python", args := "print(1)" }

/-- A trivial oracle/tool pair used to instantiate the routing theorem. -/
def trivialOracle : List BMsg → String × List ToolCallReq := fun _ => ("", [])

/-- A trivial tool-execution collaborator. -/
def trivialToolExec : String → String → String := fun _ _ => "\x7b\x7d"

/-- C2 witness: a mixed `execute_python` + safe request halts the graph;
an all-safe request routes to the tools node. -/
theorem C2_witness :
    routeAfterAgent ([BMsg.human "hi"]
      ++ [BMsg.ai "" [pyCallExample, safeCallExample]]) = Route.endRoute ∧
    routeAfterAgent ([BMsg.human "hi"]
      ++ [BMsg.ai "" [safeCallExample]]) = Route.toolsNode := by
  constructor
  · exact ((C2_routing_confirmed trivialOracle trivialToolExec 0 [BMsg.human "hi"]
      "" [pyCallExample, safeCallExample]).2.1
      ⟨pyCallExample, by decide, rfl⟩).1
  · exact ((C2_routing_confirmed trivialOracle trivialToolExec 0 [BMsg.human "hi"]
      "" [safeCallExample]).2.2 (by decide) (by decide)).1

/-- Merging a text delta into a part list does not change its tool-call
records. -/
theorem partTCsOf_appendText (s : String) :
    ∀ ps, partTCsOf (appendTextToParts ps s) = partTCsOf ps := by
  intro ps
  induction ps with
  | nil => rfl
  | cons p ps ih =>
    cases ps with
    | nil => cases p <;> rfl
    | cons q rest =>
      rw [appendTextToParts]
      cases p with
      | textPart t => simpa [partTCsOf] using ih
      | toolCallPart tc => simpa [partTCsOf] using ih

/-- The parts-side indexed update commutes with extracting the flat
tool-call list: updating the `i`-th tool-call part is updating the `i`-th
flat record. -/
theorem partTCsOf_applyAtParts (f : CToolCall → CToolCall) (i : Nat) :
    ∀ ps counter, partTCsOf (applyAtParts f i counter ps)
      = applyAtFlat f i counter (partTCsOf ps) := by
  intro ps
  induction ps with
  | nil => intro counter; rfl
  | cons p ps ih =>
    intro counter
    cases p with
    | textPart t =>
      simpa [applyAtParts, partTCsOf] using ih counter
    | toolCallPart tc =>
      rw [applyAtParts]
      by_cases hc : counter == i
      · rw [if_pos hc]
        have h1 : partTCsOf (CPart.toolCallPart (f tc)
            :: applyAtParts f i (counter + 1) ps)
            = f tc :: partTCsOf (applyAtParts f i (counter + 1) ps) := rfl
        have h2 : partTCsOf (CPart.toolCallPart tc :: ps) = tc :: partTCsOf ps :=
          rfl
        rw [h1, ih (counter + 1), h2, applyAtFlat, if_pos hc]
      · rw [if_neg hc]
        have h1 : partTCsOf (CPart.toolCallPart tc
            :: applyAtParts f i (counter + 1) ps)
            = tc :: partTCsOf (applyAtParts f i (counter + 1) ps) := rfl
        have h2 : partTCsOf (CPart.toolCallPart tc :: ps) = tc :: partTCsOf ps :=
          rfl
        rw [h1, ih (counter + 1), h2, applyAtFlat, if_neg hc]

/-- A status-or-result-only update of the flat list keeps every record's
tool name and args. -/
theorem applyAtFlat_preserves_nameArgs (f : CToolCall → CToolCall)
    (hf : ∀ t, (f t).tool = t.tool ∧ (f t).args = t.args) (i : Nat) :
    ∀ tcs counter, ((applyAtFlat f i counter tcs).map (fun t => (t.tool, t.args)))
      = tcs.map (fun t => (t.tool, t.args)) := by
  intro tcs
  induction tcs with
  | nil => intro counter; rfl
  | cons tc tcs ih =>
    intro counter
    rw [applyAtFlat]
    by_cases hc : counter == i <;> simp [hc, (hf tc).1, (hf tc).2, ih]

/-- One client event preserves the full positional identity of the flat
tool-call list and the tool-call parts. -/
theorem processEvent_preserves_positional (m : CMsg) (e : CEvent)
    (h : m.toolCalls = partToolCalls m) :
    (processEvent m e).toolCalls = partToolCalls (processEvent m e) := by
  cases e with
  | textDelta s => simpa [processEvent, partToolCalls, partTCsOf_appendText] using h
  | textEv s => simpa [processEvent, partToolCalls, partTCsOf_appendText] using h
  | toolCallEv tool args result =>
    simp [processEvent, partToolCalls, partTCsOf, List.filterMap_append]
    exact h
  | pendingToolCallEv tool args =>
    simp [processEvent, partToolCalls, partTCsOf, List.filterMap_append]
    exact h
  | errorEv s => simpa [processEvent, partToolCalls] using h
  | doneEv => simpa [processEvent, partToolCalls] using h

/-- C8 counterexample.  One `pending_tool_call` event then a reject at
index 0: the flat list says `rejected` while the tool-call part still says
`pending` — the reject action does not preserve the status component of
the positional correspondence. -/
theorem C8_counterexample :
    (rejectMark (applyEvents initialAssistantMsg
        [CEvent.pendingToolCallEv "execute_python" "print(1)"]) 0).toolCalls.map
      CToolCall.status = [TCStatus.rejected] ∧
    (partToolCalls (rejectMark (applyEvents initialAssistantMsg
        [CEvent.pendingToolCallEv "execute_python" "print(1)"]) 0)).map
      CToolCall.status = [TCStatus.pending] ∧
    (rejectMark (applyEvents initialAssistantMsg
        [CEvent.pendingToolCallEv "execute_python" "print(1)"]) 0).toolCalls
      ≠ partToolCalls (rejectMark (applyEvents initialAssistantMsg
        [CEvent.pendingToolCallEv "execute_python" "print(1)"]) 0) := by
  refine ⟨by decide, by decide, by decide⟩

/-- C8, amended.  Event processing, the approve marking and the follow-up
initialisation preserve the full positional correspondence (name, args and
status) between the flat tool-call list and the tool-call parts; the
completion update after the execute fetch and the reject action update the
status only in the flat list — they preserve the correspondence in tool
name and args and leave the parts untouched, so after a reject the `i`-th
part keeps its `pending` status while the flat record says `rejected`. -/
theorem C8_positional_correspondence_amended (m : CMsg) (e : CEvent) (i : Nat)
    (result : String) :
    (m.toolCalls = partToolCalls m →
      (processEvent m e).toolCalls = partToolCalls (processEvent m e) ∧
      (approveMark m i).toolCalls = partToolCalls (approveMark m i) ∧
      (followupInit m i result).toolCalls
        = partToolCalls (followupInit m i result)) ∧
    (m.toolCalls.map (fun t => (t.tool, t.args))
        = (partToolCalls m).map (fun t => (t.tool, t.args)) →
      (rejectMark m i).toolCalls.map (fun t => (t.tool, t.args))
          = (partToolCalls (rejectMark m i)).map (fun t => (t.tool, t.args)) ∧
      (completeMark m i result).toolCalls.map (fun t => (t.tool, t.args))
          = (partToolCalls (completeMark m i result)).map
              (fun t => (t.tool, t.args))) ∧
    (rejectMark m i).parts = m.parts ∧
    (completeMark m i result).parts = m.parts := by
  refine ⟨?_, ?_, rfl, rfl⟩
  · intro h
    refine ⟨processEvent_preserves_positional m e h, ?_, ?_⟩
    · rw [approveMark]
      show applyAtFlat _ i 0 m.toolCalls
        = partTCsOf (applyAtParts _ i 0 m.parts)
      rw [partTCsOf_applyAtParts]
      exact congrArg _ h
    · rw [followupInit]
      show applyAtFlat _ i 0 m.toolCalls
        = partTCsOf (applyAtParts _ i 0 m.parts)
      rw [partTCsOf_applyAtParts]
      exact congrArg _ h
  · intro h
    constructor
    · rw [rejectMark]
      show (applyAtFlat _ i 0 m.toolCalls).map (fun t => (t.tool, t.args))
        = (partTCsOf m.parts).map (fun t => (t.tool, t.args))
      rw [applyAtFlat_preserves_nameArgs
        (fun t => { t with status := TCStatus.rejected })
        (fun t => ⟨rfl, rfl⟩) i]
      exact h
    · rw [completeMark]
      show (applyAtFlat _ i 0 m.toolCalls).map (fun t => (t.tool, t.args))
        = (partTCsOf m.parts).map (fun t => (t.tool, t.args))
      rw [applyAtFlat_preserves_nameArgs
        (fun t => { t with status := TCStatus.completed, result := some result })
        (fun t => ⟨rfl, rfl⟩) i]
      exact h

/-- The message state after one pending tool call event. -/
def pendingMsgExample : CMsg :=
  applyEvents initialAssistantMsg
    [CEvent.textDelta "让我执行代码", CEvent.pendingToolCallEv "execute_python" "print(1)"]

/-- C8 witness: on a concrete in-flight message, event processing and the
approve marking keep the two views identical, and the reject action keeps
names and args aligned while leaving the parts untouched. -/
theorem C8_witness :
    (processEvent pendingMsgExample CEvent.doneEv).toolCalls
      = partToolCalls (processEvent pendingMsgExample CEvent.doneEv) ∧
    (approveMark pendingMsgExample 0).toolCalls
      = partToolCalls (approveMark pendingMsgExample 0) ∧
    (rejectMark pendingMsgExample 0).toolCalls.map (fun t => (t.tool, t.args))
      = (partToolCalls (rejectMark pendingMsgExample 0)).map
          (fun t => (t.tool, t.args)) ∧
    (rejectMark pendingMsgExample 0).parts = pendingMsgExample.parts := by
  have h1 := (C8_positional_correspondence_amended pendingMsgExample
    CEvent.doneEv 0 "\x7b\x7d").1 (by decide)
  have h2 := (C8_positional_correspondence_amended pendingMsgExample
    CEvent.doneEv 0 "\x7b\x7d").2.1 (by decide)
  have h3 := (C8_positional_correspondence_amended pendingMsgExample
    CEvent.doneEv 0 "\x7b\x7d").2.2.1
  exact ⟨h1.1, h1.2.1, h2.1, h3⟩

/-- Merging a text delta into a part list appends the payload to the text
concatenation of the parts. -/
theorem partsText_appendText (s : String) :
    ∀ ps, partsTextConcat (appendTextToParts ps s)
      = partsTextConcat ps ++ s := by
  intro ps
  induction ps with
  | nil => simp [appendTextToParts, partsTextConcat]
  | cons p ps ih =>
    cases ps with
    | nil =>
      cases p with
      | textPart t => simp [appendTextToParts, partsTextConcat]
      | toolCallPart tc => simp [appendTextToParts, partsTextConcat]
    | cons q rest =>
      rw [appendTextToParts]
      cases p with
      | textPart t =>
        show t ++ partsTextConcat (appendTextToParts (q :: rest) s)
          = (t ++ partsTextConcat (q :: rest)) ++ s
        rw [ih, String.append_assoc]
      | toolCallPart tc =>
        show partsTextConcat (appendTextToParts (q :: rest) s)
          = partsTextConcat (q :: rest) ++ s
        exact ih

/-- `partsTextConcat` distributes over append. -/
theorem partsTextConcat_append (l1 l2 : List CPart) :
    partsTextConcat (l1 ++ l2) = partsTextConcat l1 ++ partsTextConcat l2 := by
  induction l1 with
  | nil => simp [partsTextConcat]
  | cons p l1 ih =>
    cases p with
    | textPart t =>
      show t ++ partsTextConcat (l1 ++ l2) = (t ++ partsTextConcat l1) ++ _
      rw [ih, String.append_assoc]
    | toolCallPart tc =>
      show partsTextConcat (l1 ++ l2) = _
      exact ih

/-- Through every non-`error` event, the flattened content stays equal to
the concatenation of the text parts. -/
theorem applyEvents_content_eq_partsText (events : List CEvent) :
    ∀ m, (∀ e ∈ events, e.isError = false) →
      m.content = partsTextConcat m.parts →
      (applyEvents m events).content
        = partsTextConcat (applyEvents m events).parts := by
  induction events with
  | nil => intro m _ h; exact h
  | cons e events ih =>
    intro m hne h
    have hstep : (processEvent m e).content
        = partsTextConcat (processEvent m e).parts := by
      cases e with
      | textDelta s =>
        show m.content ++ s = partsTextConcat (appendTextToParts m.parts s)
        rw [partsText_appendText, h]
      | textEv s =>
        show m.content ++ s = partsTextConcat (appendTextToParts m.parts s)
        rw [partsText_appendText, h]
      | toolCallEv tool args result =>
        show m.content = partsTextConcat (m.parts ++ [CPart.toolCallPart _])
        rw [partsTextConcat_append]
        simpa [partsTextConcat] using h
      | pendingToolCallEv tool args =>
        show m.content = partsTextConcat (m.parts ++ [CPart.toolCallPart _])
        rw [partsTextConcat_append]
        simpa [partsTextConcat] using h
      | errorEv s =>
        exact absurd (hne _ (List.mem_cons_self _ _)) (by simp [CEvent.isError])
      | doneEv => simpa [processEvent] using h
    rw [applyEvents, List.foldl_cons]
    exact ih (processEvent m e)
      (fun e2 he2 => hne e2 (List.mem_cons_of_mem _ he2)) hstep

/-- In a turn without `error` events and without legacy `text` events, the
flattened content grows by exactly the `text_delta` payloads. -/
theorem applyEvents_content_deltas (events : List CEvent) :
    ∀ m, (∀ e ∈ events, e.isError = false) →
      (∀ e ∈ events, e.isLegacyText = false) →
      (applyEvents m events).content = m.content ++ textDeltaConcat events := by
  induction events with
  | nil => intro m _ _; simp [applyEvents, textDeltaConcat]
  | cons e events ih =>
    intro m hne hnt
    rw [applyEvents, List.foldl_cons]
    have ihe := ih (processEvent m e)
      (fun x hx => hne x (List.mem_cons_of_mem _ hx))
      (fun x hx => hnt x (List.mem_cons_of_mem _ hx))
    cases e with
    | textDelta s =>
      rw [textDeltaConcat]
      have hc : (processEvent m (CEvent.textDelta s)).content = m.content ++ s :=
        rfl
      rw [applyEvents] at ihe
      rw [ihe, hc, String.append_assoc]
    | textEv s =>
      exact absurd (hnt _ (List.mem_cons_self _ _)) (by simp [CEvent.isLegacyText])
    | toolCallEv tool args result =>
      rw [applyEvents] at ihe
      rw [ihe]
      rfl
    | pendingToolCallEv tool args =>
      rw [applyEvents] at ihe
      rw [ihe]
      rfl
    | errorEv s =>
      exact absurd (hne _ (List.mem_cons_self _ _)) (by simp [CEvent.isError])
    | doneEv =>
      rw [applyEvents] at ihe
      rw [ihe]
      rfl

/-- The event sequence of a failed turn: streamed text, an `error` event,
then the end of the stream. -/
def errorTurnEvents : List CEvent :=
  [CEvent.textDelta "好的", CEvent.errorEv "Error: boom", CEvent.doneEv]

/-- C9 counterexample.  In a turn that received an `error` event, the
client appends the error payload to the flattened content but not to the
parts, so the content equals neither the text-part concatenation nor the
concatenation of the `text_delta` payloads. -/
theorem C9_counterexample :
    (applyEvents initialAssistantMsg errorTurnEvents).content
      ≠ partsTextConcat (applyEvents initialAssistantMsg errorTurnEvents).parts ∧
    (applyEvents initialAssistantMsg errorTurnEvents).content
      ≠ textDeltaConcat errorTurnEvents := by
  refine ⟨by decide, by decide⟩

/-- C9, amended.  In every turn without an `error` event the assistant
message's flattened content equals the concatenation of the text of its
text parts, and — when no legacy `text` events occur either — equals the
concatenation of the `text_delta` payloads of the turn.  An `error` event
appends its payload to the flattened content only, leaving the parts
unchanged, which breaks both equalities for the remainder of that turn. -/
theorem C9_text_concat_amended (events : List CEvent) :
    ((∀ e ∈ events, e.isError = false) →
      (applyEvents initialAssistantMsg events).content
        = partsTextConcat (applyEvents initialAssistantMsg events).parts ∧
      ((∀ e ∈ events, e.isLegacyText = false) →
        (applyEvents initialAssistantMsg events).content
          = textDeltaConcat events)) ∧
    (∀ m s, (processEvent m (CEvent.errorEv s)).content = m.content ++ s ∧
      (processEvent m (CEvent.errorEv s)).parts = m.parts) := by
  constructor
  · intro hne
    refine ⟨applyEvents_content_eq_partsText events initialAssistantMsg hne rfl,
      ?_⟩
    intro hnt
    have h := applyEvents_content_deltas events initialAssistantMsg hne hnt
    simpa using h
  · intro m s
    exact ⟨rfl, rfl⟩

/-- The event sequence of a successful mixed turn. -/
def okTurnEvents : List CEvent :=
  [CEvent.textDelta "你", CEvent.toolCallEv "calculate" "1+1" "2",
   CEvent.textDelta "好", CEvent.doneEv]

/-- C9 witness: on a successful mixed turn the flattened content equals
both the text-part concatenation and the `text_delta` payload
concatenation. -/
theorem C9_witness :
    (applyEvents initialAssistantMsg okTurnEvents).content
      = partsTextConcat (applyEvents initialAssistantMsg okTurnEvents).parts ∧
    (applyEvents initialAssistantMsg okTurnEvents).content
      = textDeltaConcat okTurnEvents := by
  have h := (C9_text_concat_amended okTurnEvents).1 (by decide)
  exact ⟨h.1, h.2 (by decide)⟩

/-- The `files && Array.isArray(files) && files.length > 0` guard. -/
def filesNonempty (files : Option (List FileInfo)) : Bool :=
  match files with
  | some fs => fs.length > 0
  | none => false

/-- The content carried by a LangChain message. -/
def contentOfBMsg : BMsg → String
  | BMsg.system c => c
  | BMsg.human c => c
  | BMsg.ai c _ => c
  | BMsg.toolMsg _ c => c

/-- C10.  For every call to `buildLangChainMessages`: the injection step
keeps the message count; with an absent or empty new-files list it is the
identity; with a non-empty list the message at index `i` is unchanged
unless `i` is the last index and that message's role is `user`, in which
case exactly the per-file context string is appended to its content; the
full output is the system message followed by the converted processed
messages (conversion preserving each content) and the optional tool-result
appendix. -/
theorem C10_new_file_injection_confirmed (messages : List ChatMsg)
    (files : Option (List FileInfo)) (toolResult : Option ToolResultPayload)
    (sessionFiles : Option (List FileInfo)) (i : Nat)
    (hi : i < messages.length) :
    (injectNewFileContext messages files).length = messages.length ∧
    (filesNonempty files = false → injectNewFileContext messages files = messages) ∧
    ((injectNewFileContext messages files).getD i { role := "", content := "" }
      = (if filesNonempty files ∧ i = messages.length - 1
            ∧ (messages.getD i { role := "", content := "" }).role = "user" then
          { role := (messages.getD i { role := "", content := "" }).role,
            content := (messages.getD i { role := "", content := "" }).content
              ++ newFileContextStr (files.getD []) }
        else messages.getD i { role := "", content := "" })) ∧
    buildLangChainMessages messages files toolResult sessionFiles
      = BMsg.system (SYSTEM_PROMPT ++ sessionFileContextStr files sessionFiles)
          :: (injectNewFileContext messages files).map toLangChainMsg
          ++ (match toolResult with
              | some tr => [BMsg.human (toolResultMessage tr)]
              | none => []) ∧
    (∀ msg : ChatMsg, contentOfBMsg (toLangChainMsg msg) = msg.content) := by
  refine ⟨?_, ?_, ?_, rfl, ?_⟩
  · cases files with
    | none => rfl
    | some fs =>
      rw [injectNewFileContext]
      split
      · exact List.length_mapIdx
      · rfl
  · intro h
    cases files with
    | none => rfl
    | some fs =>
      rw [injectNewFileContext]
      rw [filesNonempty] at h
      simp only [decide_eq_false_iff_not, Nat.not_lt, Nat.le_zero] at h
      rw [if_neg (by omega)]
  · cases files with
    | none =>
      have hcond : ¬ (filesNonempty none = true ∧ i = messages.length - 1
          ∧ (messages.getD i { role := "", content := "" }).role = "user") := by
        rintro ⟨h, -⟩
        cases h
      rw [injectNewFileContext]
      simp only [filesNonempty]
      rw [if_neg (by rintro ⟨h, -⟩; cases h)]
    | some fs =>
      by_cases hlen : fs.length > 0
      · rw [injectNewFileContext, if_pos hlen]
        have hi' : i < (messages.mapIdx (fun j msg =>
            if j == messages.length - 1 && msg.role == "user" then
              { msg with content := msg.content ++ newFileContextStr fs }
            else msg)).length := by
          rw [List.length_mapIdx]; exact hi
        have hL : (messages.mapIdx (fun j msg =>
            if j == messages.length - 1 && msg.role == "user" then
              { msg with content := msg.content ++ newFileContextStr fs }
            else msg)).getD i { role := "", content := "" }
            = (if i == messages.length - 1
                  && (messages.get ⟨i, hi⟩).role == "user" then
                { messages.get ⟨i, hi⟩ with
                  content := (messages.get ⟨i, hi⟩).content
                    ++ newFileContextStr fs }
               else messages.get ⟨i, hi⟩) := by
          rw [List.getD_eq_getElem _ _ hi']
          exact List.get_mapIdx messages _ i hi
        have hR : messages.getD i { role := "", content := "" }
            = messages.get ⟨i, hi⟩ := by
          rw [List.getD_eq_getElem _ _ hi]
          rfl
        rw [hL, hR]
        by_cases h1 : i = messages.length - 1
        · by_cases h2 : (messages.get ⟨i, hi⟩).role = "user"
          · have hb : (i == messages.length - 1
                && (messages.get ⟨i, hi⟩).role == "user") = true := by
              simp only [Bool.and_eq_true, beq_iff_eq]
              exact ⟨h1, h2⟩
            rw [if_pos hb, if_pos ⟨by simp [filesNonempty, hlen], h1, h2⟩]
            rfl
          · have hb : ¬ (i == messages.length - 1
                && (messages.get ⟨i, hi⟩).role == "user") = true := by
              simp only [Bool.and_eq_true, beq_iff_eq]
              rintro ⟨-, h⟩
              exact h2 h
            rw [if_neg hb, if_neg (by rintro ⟨-, -, h⟩; exact h2 h)]
        · have hb : ¬ (i == messages.length - 1
              && (messages.get ⟨i, hi⟩).role == "user") = true := by
            simp only [Bool.and_eq_true, beq_iff_eq]
            rintro ⟨h, -⟩
            exact h1 h
          rw [if_neg hb, if_neg (by rintro ⟨-, h, -⟩; exact h1 h)]
      · rw [injectNewFileContext, if_neg hlen]
        rw [if_neg ?_]
        rintro ⟨h, -⟩
        rw [filesNonempty] at h
        simp only [decide_eq_true_eq] at h
        exact hlen h
  · intro msg
    rw [toLangChainMsg]
    split
    · rfl
    · split <;> rfl

/-- A new file attached to the example turn (no rich preview). -/
def exampleNewFile : FileInfo :=
  { name := "data.csv", size := 42, preview := "a,b", isGenerated := false,
    richPreview := none }

/-- C10 witness: with one new file, the single (last, user-role) message
gets exactly the per-file context appended. -/
theorem C10_witness :
    (injectNewFileContext [{ role := "user", content := "你好" }]
        (some [exampleNewFile])).getD 0 { role := "", content := "" }
      = { role := "user",
          content := "你好" ++ newFileContextStr [exampleNewFile] } := by
  have h := (C10_new_file_injection_confirmed
    [{ role := "user", content := "你好" }] (some [exampleNewFile]) none none 0
    (by decide)).2.2.1
  simpa [filesNonempty] using h

/-- The name-heuristic phase never changes `numericCount`. -/
theorem patternStep_numericCount (acc : ColStats) (col : String) :
    (patternStep acc col).numericCount = acc.numericCount := by
  rw [patternStep]
  split_ifs <;> rfl

/-- One column-classification step increments `numericCount` exactly when
the column's effective dtype is numeric. -/
theorem classifyColumn_numericCount (dtypes : List (String × String))
    (acc : ColStats) (col : String) :
    (classifyColumn dtypes acc col).numericCount
      = (if NUMERIC_DTYPES.contains (dtypeOf dtypes col) then
          acc.numericCount + 1
         else acc.numericCount) := by
  rw [classifyColumn, patternStep_numericCount, dtypeStep]
  split_ifs <;> rfl

/-- With no numeric-dtype column, the counting loop leaves `numericCount`
at its initial value. -/
theorem foldl_numericCount (dtypes : List (String × String)) :
    ∀ (cols : List String) (acc : ColStats),
      (∀ c ∈ cols, NUMERIC_DTYPES.contains (dtypeOf dtypes c) = false) →
      (cols.foldl (classifyColumn dtypes) acc).numericCount
        = acc.numericCount := by
  intro cols
  induction cols with
  | nil => intro acc _; rfl
  | cons c cols ih =>
    intro acc h
    rw [List.foldl_cons, ih _ (fun x hx => h x (List.mem_cons_of_mem _ hx)),
      classifyColumn_numericCount, h c (List.mem_cons_self _ _)]
    simp

/-- A fraction with non-negative numerator is never exceeded from below by
a zero-numerator fraction. -/
theorem frac_ltb_nonneg_zeronum (a : Int) (b d : Nat) (ha : 0 ≤ a) :
    Frac.ltb { num := a, den := b } { num := 0, den := d } = false := by
  rw [Frac.ltb]
  simp only [Int.zero_mul, decide_eq_false_iff_not, not_lt]
  exact mul_nonneg ha (Int.natCast_nonneg d)

/-- With zero numeric columns, every threshold comparison against the
numeric ratio fails. -/
theorem ltb_numericShare_false (st : ColStats) (totalCols : Nat)
    (h : st.numericCount = 0) (a : Int) (b : Nat) (ha : 0 ≤ a) :
    Frac.ltb { num := a, den := b } (numericShare st totalCols) = false := by
  rw [numericShare]
  split
  · rw [h]
    have hc : ((0 : Nat) : Int) = (0 : Int) := rfl
    rw [hc]
    exact frac_ltb_nonneg_zeronum a b totalCols ha
  · exact frac_ltb_nonneg_zeronum a b 1 ha

/-- With zero numeric columns, neither `time_series` nor
`high_dimensional` ever receives a score. -/
theorem scoreList_no_ts_hd (st : ColStats) (totalCols : Nat)
    (h : st.numericCount = 0) :
    ∀ p ∈ scoreList st totalCols,
      p.1 ≠ DatasetCategory.time_series
        ∧ p.1 ≠ DatasetCategory.high_dimensional := by
  intro p hp
  have l1 := ltb_numericShare_false st totalCols h 1 2 (by decide)
  have l2 := ltb_numericShare_false st totalCols h 7 10 (by decide)
  have l3 := ltb_numericShare_false st totalCols h 4 5 (by decide)
  have l4 := ltb_numericShare_false st totalCols h 3 10 (by decide)
  have hn2 : ¬ st.numericCount ≥ 2 := by omega
  simp only [scoreList, l1, l2, l3, l4, hn2, Bool.false_eq_true, and_false,
    false_and, if_false, List.append_nil, List.nil_append] at hp
  repeat' split at hp
  all_goals simp_all
  all_goals casesm* _ ∨ _
  all_goals simp_all

/-- The winning category is `general` or appears in the score list. -/
theorem foldl_pick_mem (scores : List (DatasetCategory × Frac)) :
    ∀ init : DatasetCategory × Frac,
      (scores.foldl (fun acc p => if Frac.ltb acc.2 p.2 then p else acc)
        init).1 = init.1
      ∨ ∃ p ∈ scores,
        (scores.foldl (fun acc p => if Frac.ltb acc.2 p.2 then p else acc)
          init).1 = p.1 := by
  induction scores with
  | nil => intro init; exact Or.inl rfl
  | cons q scores ih =>
    intro init
    rw [List.foldl_cons]
    by_cases hc : Frac.ltb init.2 q.2
    · rw [if_pos hc]
      rcases ih q with h | ⟨p, hp, hpe⟩
      · exact Or.inr ⟨q, List.mem_cons_self _ _, h⟩
      · exact Or.inr ⟨p, List.mem_cons_of_mem _ hp, hpe⟩
    · rw [if_neg hc]
      rcases ih init with h | ⟨p, hp, hpe⟩
      · exact Or.inl h
      · exact Or.inr ⟨p, List.mem_cons_of_mem _ hp, hpe⟩

/-- With zero numeric columns, the `high_dimensional` tag is never
assigned. -/
theorem tagList_no_high_dimensional (st : ColStats)
    (totalRows totalCols : Nat) (nullCounts : List (String × Nat))
    (h : st.numericCount = 0) :
    ∀ t ∈ tagList st totalRows totalCols nullCounts,
      t ≠ "high_dimensional" := by
  intro t ht
  have l2 := ltb_numericShare_false st totalCols h 7 10 (by decide)
  have l5 := ltb_numericShare_false st totalCols h 3 5 (by decide)
  simp only [tagList, l2, l5, Bool.false_eq_true, and_false, if_false,
    List.append_nil, List.nil_append] at ht
  repeat' split at ht
  all_goals simp_all
  all_goals casesm* _ ∨ _
  all_goals simp_all

/-- Membership through the stable insertion. -/
theorem mem_insertByPriorityDesc (a s : AnalysisStrategy) :
    ∀ l, a ∈ insertByPriorityDesc s l ↔ a = s ∨ a ∈ l := by
  intro l
  induction l with
  | nil => simp [insertByPriorityDesc]
  | cons t ts ih =>
    rw [insertByPriorityDesc]
    split
    · simp
    · rw [List.mem_cons, ih, List.mem_cons]
      tauto

/-- Sorting by priority preserves membership. -/
theorem mem_sortByPriorityDesc (a : AnalysisStrategy)
    (l : List AnalysisStrategy) : a ∈ sortByPriorityDesc l ↔ a ∈ l := by
  induction l with
  | nil => simp [sortByPriorityDesc]
  | cons t ts ih =>
    rw [sortByPriorityDesc, List.foldr_cons, mem_insertByPriorityDesc,
      List.mem_cons]
    rw [sortByPriorityDesc] at ih
    rw [ih]

/-- With zero numeric columns and no `high_dimensional` tag, the strategy
catalog never unlocks the correlation/regression, clustering or
dimensionality-reduction templates. -/
theorem selectStrategies_excludes (profile : DatasetProfile) (st : ColStats)
    (hnum : st.numericCount = 0)
    (htag : ∀ t ∈ profile.tags, t ≠ "high_dimensional") :
    ∀ s ∈ selectStrategies profile st,
      s.name ≠ "相关性与回归分析" ∧ s.name ≠ "聚类分析"
        ∧ s.name ≠ "降维与特征分析" := by
  intro s hs
  rw [selectStrategies, mem_sortByPriorityDesc] at hs
  have h3 : ¬ st.numericCount ≥ 3 := by omega
  have hdim : ¬ (profile.tags.contains "high_dimensional" = true
      ∨ st.numericCount > 10) := by
    rintro (hc | hc)
    · exact htag _ (by simpa using hc) rfl
    · omega
  simp only [h3, hdim, false_and, if_false, List.append_nil,
    List.nil_append] at hs
  repeat' split at hs
  all_goals simp_all
  all_goals casesm* _ ∨ _
  all_goals simp_all

/-- C7.  For every rich structural preview whose columns have zero numeric
dtypes, `classifyDataset` never returns category `time_series` or
`high_dimensional`, and its strategy list never contains the
correlation/regression, clustering, or dimensionality-reduction
strategies. -/
theorem C7_zero_numeric_confirmed (f : FileInfo) (rp : RichPreview)
    (profile : DatasetProfile) (strategies : List AnalysisStrategy)
    (hrp : f.richPreview = some rp)
    (hnum : ∀ c ∈ rp.columns,
      NUMERIC_DTYPES.contains (dtypeOf rp.dtypes c) = false)
    (hres : classifyDataset f = some (profile, strategies)) :
    profile.category ≠ DatasetCategory.time_series ∧
    profile.category ≠ DatasetCategory.high_dimensional ∧
    ∀ s ∈ strategies,
      s.name ≠ "相关性与回归分析" ∧ s.name ≠ "聚类分析"
        ∧ s.name ≠ "降维与特征分析" := by
  simp only [classifyDataset, hrp] at hres
  by_cases hcols : rp.columns.length == 0
  · rw [if_pos hcols] at hres
    cases hres
  · rw [if_neg hcols] at hres
    simp only [Option.some.injEq, Prod.mk.injEq] at hres
    obtain ⟨hprof, hstrat⟩ := hres
    have h0 : (computeColStats rp.columns rp.dtypes).numericCount = 0 := by
      rw [computeColStats]
      exact foldl_numericCount rp.dtypes rp.columns emptyColStats hnum
    subst hprof
    subst hstrat
    refine ⟨?_, ?_, ?_⟩
    · show pickCategory _ ≠ _
      rw [pickCategory]
      rcases foldl_pick_mem (scoreList (computeColStats rp.columns rp.dtypes)
          rp.columns.length) (DatasetCategory.general, Frac.ofNat 0)
        with h | ⟨p, hp, hpe⟩
      · rw [h]; decide
      · rw [hpe]
        exact (scoreList_no_ts_hd _ _ h0 p hp).1
    · show pickCategory _ ≠ _
      rw [pickCategory]
      rcases foldl_pick_mem (scoreList (computeColStats rp.columns rp.dtypes)
          rp.columns.length) (DatasetCategory.general, Frac.ofNat 0)
        with h | ⟨p, hp, hpe⟩
      · rw [h]; decide
      · rw [hpe]
        exact (scoreList_no_ts_hd _ _ h0 p hp).2
    · exact selectStrategies_excludes _ _ h0
        (tagList_no_high_dimensional _ _ _ _ h0)

/-- A rich preview with two object-dtype columns — zero numeric dtypes. -/
def zeroNumericRP : RichPreview :=
  { fileName := "notes.csv", shape := (3, 2), columns := ["region", "comment"],
    dtypes := [("region", "object"), ("comment", "object")],
    headText := "", describeText := "",
    nullCounts := [("region", 0), ("comment", 0)] }

/-- A file carrying the zero-numeric rich preview. -/
def zeroNumericFile : FileInfo :=
  { name := "notes.csv", size := 10, preview := "", isGenerated := false,
    richPreview := some zeroNumericRP }

/-- The classification outcome of the zero-numeric file. -/
def zeroNumericOutcome : DatasetProfile × List AnalysisStrategy :=
  (classifyDataset zeroNumericFile).getD
    ({ category := DatasetCategory.general, tags := [], summary := "",
       numericShare := Frac.ofNat 0, categoricalShare := Frac.ofNat 0,
       hasDatetime := false, hasText := false, hasMissingData := false,
       rowCount := 0, colCount := 0 }, [])

/-- C7 witness: on a concrete all-categorical preview the classifier picks
neither `time_series` nor `high_dimensional`. -/
theorem C7_witness :
    zeroNumericOutcome.1.category ≠ DatasetCategory.time_series ∧
    zeroNumericOutcome.1.category ≠ DatasetCategory.high_dimensional := by
  have hres : classifyDataset zeroNumericFile
      = some (zeroNumericOutcome.1, zeroNumericOutcome.2) := by decide
  have h := C7_zero_numeric_confirmed zeroNumericFile zeroNumericRP
    zeroNumericOutcome.1 zeroNumericOutcome.2 rfl (by decide) hres
  exact ⟨h.1, h.2.1⟩

end NextAnalyst
